import Mathlib

/-!
# Verification of the strip-foundation bearing-capacity calculator

Shallow embedding of `bearing_capacity_app.py` over the reals.  Each
definition mirrors one assignment of the script (NumPy floating-point
arithmetic is modelled by real arithmetic; `np.radians`, `np.degrees`,
`np.linspace` are modelled by their mathematical definitions).  The
theorems below settle the frozen claims about the program.
-/

open Real

noncomputable section

/-- The raw input parameters collected by the sidebar widgets
(`phi_k`, `attraksjon`, `gamma`, `gamma_m`, `V_k`, `B`, `D`, `e`). -/
structure Inputs where
  phi_k : ℝ
  attraksjon : ℝ
  gamma : ℝ
  gamma_m : ℝ
  V_k : ℝ
  B : ℝ
  D : ℝ
  e : ℝ

/-- `np.radians(x)`: degrees to radians. -/
def radians (x : ℝ) : ℝ := x * (Real.pi / 180)

/-- `np.degrees(x)`: radians to degrees. -/
def degrees (x : ℝ) : ℝ := x * (180 / Real.pi)

/-- Line 29: `phi_d_rad = np.arctan(np.tan(np.radians(phi_k)) / gamma_m)`. -/
def phi_d_rad (i : Inputs) : ℝ := Real.arctan (Real.tan (radians i.phi_k) / i.gamma_m)

/-- Line 30: `phi_d_deg = np.degrees(phi_d_rad)`. -/
def phi_d_deg (i : Inputs) : ℝ := degrees (phi_d_rad i)

/-- Line 33: `B_prime = B - 2 * abs(e)`. -/
def B_prime (i : Inputs) : ℝ := i.B - 2 * |i.e|

/-- Line 36: `Nq = np.exp(np.pi * np.tan(phi_d_rad)) * (np.tan(np.radians(45) + phi_d_rad/2))**2`. -/
def Nq (i : Inputs) : ℝ :=
  Real.exp (Real.pi * Real.tan (phi_d_rad i)) * Real.tan (radians 45 + phi_d_rad i / 2) ^ 2

/-- Line 37: `Ngamma = 2 * (Nq - 1) * np.tan(phi_d_rad)`. -/
def Ngamma (i : Inputs) : ℝ := 2 * (Nq i - 1) * Real.tan (phi_d_rad i)

/-- Line 40: `q_sur = gamma * D`. -/
def q_sur (i : Inputs) : ℝ := i.gamma * i.D

/-- Line 41: `sigma_d = (q_sur + attraksjon) * Nq + 0.5 * gamma * B_prime * Ngamma - attraksjon`. -/
def sigma_d (i : Inputs) : ℝ :=
  (q_sur i + i.attraksjon) * Nq i + 0.5 * i.gamma * B_prime i * Ngamma i - i.attraksjon

/-- Line 42: `q_faktisk = V_k / B_prime`. -/
def q_faktisk (i : Inputs) : ℝ := i.V_k / B_prime i

/-- Line 43: `utnyttelse = (q_faktisk / sigma_d) * 100`. -/
def utnyttelse (i : Inputs) : ℝ := q_faktisk i / sigma_d i * 100

/-- Line 55: `side = 1 if e >= 0 else -1`. -/
def side (i : Inputs) : ℝ := if 0 ≤ i.e then 1 else -1

/-- Line 56: `x_eff_start = e - (side * B_prime/2)`. -/
def x_eff_start (i : Inputs) : ℝ := i.e - side i * B_prime i / 2

/-- Line 57: `x_eff_end = e + (side * B_prime/2)`. -/
def x_eff_end (i : Inputs) : ℝ := i.e + side i * B_prime i / 2

/-- Line 58: `y_base = -D`. -/
def y_base (i : Inputs) : ℝ := -i.D

/-- Line 61: `p1 = [x_eff_start, y_base]`. -/
def p1 (i : Inputs) : ℝ × ℝ := (x_eff_start i, y_base i)

/-- Line 64: `alpha1_rad = np.radians(45 + phi_d_deg/2)`. -/
def alpha1_rad (i : Inputs) : ℝ := radians (45 + phi_d_deg i / 2)

/-- Line 65: `h_kile = (B_prime/2) * np.tan(alpha1_rad)`. -/
def h_kile (i : Inputs) : ℝ := B_prime i / 2 * Real.tan (alpha1_rad i)

/-- Line 66: `p_apex = [e, y_base - h_kile]`. -/
def p_apex (i : Inputs) : ℝ × ℝ := (i.e, y_base i - h_kile i)

/-- Line 69: `r0 = (B_prime/2) / np.cos(alpha1_rad)`. -/
def r0 (i : Inputs) : ℝ := B_prime i / 2 / Real.cos (alpha1_rad i)

/-- Line 70: `theta_vals = np.linspace(0, np.pi/2 + np.radians(phi_d_deg), 25)`;
the `k`-th sample is `(π/2 + radians(phi_d_deg)) * k / 24`. -/
def theta_val (i : Inputs) (k : ℕ) : ℝ :=
  (Real.pi / 2 + radians (phi_d_deg i)) * k / 24

/-- Lines 72-78, loop body: the spiral point for sample `k`
(`r = r0 * np.exp(t * np.tan(phi_d_rad))`, `angle = alpha1_rad - t`,
`px = x_eff_end + side*r*cos(angle)`, `py = y_base - r*sin(angle)`). -/
def spiral_pt (i : Inputs) (k : ℕ) : ℝ × ℝ :=
  (x_eff_end i +
      side i * (r0 i * Real.exp (theta_val i k * Real.tan (phi_d_rad i))) *
        Real.cos (alpha1_rad i - theta_val i k),
    y_base i -
      r0 i * Real.exp (theta_val i k * Real.tan (phi_d_rad i)) *
        Real.sin (alpha1_rad i - theta_val i k))

/-- Lines 71-78: `spiral_pts`, the list of the 25 sampled spiral points. -/
def spiral_pts (i : Inputs) : List (ℝ × ℝ) := (List.range 25).map (spiral_pt i)

/-- Line 82: `p_last_spiral = spiral_pts[-1]`. -/
def p_last_spiral (i : Inputs) : ℝ × ℝ := (spiral_pts i).getLastD (0, 0)

/-- Line 84: `exit_angle = np.radians(45 - phi_d_deg/2)`. -/
def exit_angle (i : Inputs) : ℝ := radians (45 - phi_d_deg i / 2)

/-- Line 86: `dx_exit = abs(p_last_spiral[1]) * np.tan(np.radians(90) - exit_angle)`. -/
def dx_exit (i : Inputs) : ℝ :=
  |(p_last_spiral i).2| * Real.tan (radians 90 - exit_angle i)

/-- Line 87: `p_exit = [p_last_spiral[0] + (side * dx_exit), 0]`. -/
def p_exit (i : Inputs) : ℝ × ℝ := ((p_last_spiral i).1 + side i * dx_exit i, 0)

/-- Line 90: `poly_pts = [p1, p_apex] + spiral_pts + [p_exit, [x_eff_start, 0]]`. -/
def poly_pts (i : Inputs) : List (ℝ × ℝ) :=
  [p1 i, p_apex i] ++ spiral_pts i ++ [p_exit i, (x_eff_start i, 0)]

/-- A matplotlib polygon patch: its vertex list and its `closed` flag. -/
structure MplPolygon where
  pts : List (ℝ × ℝ)
  closed : Bool

/-- Lines 101-102: `failure_poly = Polygon(poly_pts, closed=True, ...)`. -/
def failure_poly (i : Inputs) : MplPolygon := ⟨poly_pts i, true⟩

/-- Line 136: `dist_kant = abs(p_exit[0] - (side * B/2))`. -/
def dist_kant (i : Inputs) : ℝ := |(p_exit i).1 - side i * (i.B / 2)|

/-- The scalar and geometric results displayed by the script. -/
structure Outputs where
  phi_d_rad : ℝ
  B_prime : ℝ
  Nq : ℝ
  Ngamma : ℝ
  sigma_d : ℝ
  q_faktisk : ℝ
  utnyttelse : ℝ
  poly : MplPolygon
  dist_kant : ℝ
  h_kile : ℝ

/-- Straight-line evaluation of the whole script on one input vector. -/
def evaluate (i : Inputs) : Outputs :=
  ⟨phi_d_rad i, B_prime i, Nq i, Ngamma i, sigma_d i, q_faktisk i, utnyttelse i,
    failure_poly i, dist_kant i, h_kile i⟩

/-- The script contains no input validation and no `raise` statement on any
path, so running it can only ever produce a result, never an error: the
error-aware view of evaluation is the always-`ok` wrapper of `evaluate`. -/
def evaluateE (i : Inputs) : Except String Outputs := Except.ok (evaluate i)

/-- Cross product of two planar points, the shoelace building block. -/
def cross2 (p q : ℝ × ℝ) : ℝ := p.1 * q.2 - q.1 * p.2

/-- Sum of `cross2` over consecutive pairs of an open polyline. -/
def pathSum : List (ℝ × ℝ) → ℝ
  | [] => 0
  | [_] => 0
  | p :: q :: l => cross2 p q + pathSum (q :: l)

/-- Doubled signed (shoelace) area of the closed polygon through the
given vertices, the closing edge from the last vertex back to the first
included. -/
def shoelace (l : List (ℝ × ℝ)) : ℝ :=
  pathSum l + cross2 (l.getLastD (0, 0)) (l.headD (0, 0))

/-- Doubled signed area of the failure-surface polygon. -/
def polyArea2 (i : Inputs) : ℝ := shoelace (poly_pts i)

/-- (Unsigned) area enclosed by the failure-surface polygon, computed by
the shoelace formula. -/
def polyArea (i : Inputs) : ℝ := |polyArea2 i| / 2

/-- Minimum of a list of reals (the head for a singleton). -/
def minY : List ℝ → ℝ
  | [] => 0
  | x :: xs => xs.foldr min x

/-- The one-parameter input family used to analyse the polygon area:
`φk = 45°`, `B = 1`, `D = 0`, `e = 0`, with the material factor free. -/
def mkInput9 (gm : ℝ) : Inputs := ⟨45, 5, 19, gm, 350, 1, 0, 0⟩

/-- Design friction angle along the `mkInput9` family. -/
def phi9 (gm : ℝ) : ℝ := Real.arctan (1 / gm)

/-- Active-wedge angle along the `mkInput9` family. -/
def alpha9 (gm : ℝ) : ℝ := Real.pi / 4 + phi9 gm / 2

/-- Spiral parameter samples along the `mkInput9` family. -/
def theta9 (gm : ℝ) (k : ℕ) : ℝ := (Real.pi / 2 + phi9 gm) * k / 24

/-- Spiral parameter step along the `mkInput9` family. -/
def delta9 (gm : ℝ) : ℝ := (Real.pi / 2 + phi9 gm) / 24

/-- Spiral radii along the `mkInput9` family (effective width 1). -/
def r9 (gm : ℝ) (k : ℕ) : ℝ :=
  1 / 2 / Real.cos (alpha9 gm) * Real.exp (theta9 gm k * Real.tan (phi9 gm))

/-- The doubled signed area of the failure polygon along the `mkInput9`
family, in closed form. -/
def F9 (gm : ℝ) : ℝ :=
  Real.tan (alpha9 gm)
    + Real.sin (delta9 gm) * (∑ j in Finset.range 24, r9 gm j * r9 gm (j + 1))
    - r9 gm 24 ^ 2 * Real.tan (alpha9 gm)

/-- Degree/radian conversions are mutually inverse. -/
theorem radians_degrees (x : ℝ) : radians (degrees x) = x := by
  unfold radians degrees
  field_simp

/-- `alpha1_rad` in closed form: `α1 = π/4 + φd/2`. -/
theorem alpha1_rad_eq (i : Inputs) : alpha1_rad i = Real.pi / 4 + phi_d_rad i / 2 := by
  unfold alpha1_rad phi_d_deg radians degrees
  field_simp
  ring

/-- `exit_angle` in closed form: `α2 = π/4 - φd/2`. -/
theorem exit_angle_eq (i : Inputs) : exit_angle i = Real.pi / 4 - phi_d_rad i / 2 := by
  unfold exit_angle phi_d_deg radians degrees
  field_simp
  ring

/-- The `theta` samples written with `phi_d_rad`. -/
theorem theta_val_eq (i : Inputs) (k : ℕ) :
    theta_val i k = (Real.pi / 2 + phi_d_rad i) * k / 24 := by
  unfold theta_val phi_d_deg
  rw [radians_degrees]

/-- C1: For every input, the design bearing capacity, actual pressure, and
utilization are computed as `σd = (γ·D + a)·Nq + 0.5·γ·B'·Nγ − a`,
`q = V/B'`, and `utilization = 100·q/σd`, where `B'` is the effective
width and `a` the attraction. -/
theorem c1_capacity_formulas (i : Inputs) :
    sigma_d i = (i.gamma * i.D + i.attraksjon) * Nq i
        + 0.5 * i.gamma * B_prime i * Ngamma i - i.attraksjon
      ∧ q_faktisk i = i.V_k / B_prime i
      ∧ utnyttelse i = 100 * q_faktisk i / sigma_d i := by
  refine ⟨rfl, rfl, ?_⟩
  unfold utnyttelse
  ring

/-- C2: For every characteristic friction angle `φk` and material factor `γm`,
the design factors are `φd = atan(tan(φk)/γm)`,
`Nq = exp(π·tan(φd))·tan²(45° + φd/2)`, and `Nγ = 2·(Nq − 1)·tan(φd)`
(angles measured in degrees in the input, radians internally). -/
theorem c2_design_factors (i : Inputs) :
    phi_d_rad i = Real.arctan (Real.tan (i.phi_k * (Real.pi / 180)) / i.gamma_m)
      ∧ Nq i = Real.exp (Real.pi * Real.tan (phi_d_rad i))
          * Real.tan (Real.pi / 4 + phi_d_rad i / 2) ^ 2
      ∧ Ngamma i = 2 * (Nq i - 1) * Real.tan (phi_d_rad i) := by
  refine ⟨rfl, ?_, rfl⟩
  unfold Nq radians
  rw [show (45 : ℝ) * (Real.pi / 180) = Real.pi / 4 by ring]

/-- For `0 < x < 90` (degrees) the radian measure lies in `(0, π/2)`. -/
theorem radians_mem (x : ℝ) (h0 : 0 < x) (h1 : x < 90) :
    0 < radians x ∧ radians x < Real.pi / 2 := by
  unfold radians
  constructor
  · positivity
  · have hπ : 0 < Real.pi / 180 := by positivity
    calc x * (Real.pi / 180) < 90 * (Real.pi / 180) := mul_lt_mul_of_pos_right h1 hπ
      _ = Real.pi / 2 := by ring

/-- The design friction angle is positive for valid inputs. -/
theorem phi_d_pos (i : Inputs) (h0 : 0 < i.phi_k) (h1 : i.phi_k < 90)
    (hγ : 0 < i.gamma_m) : 0 < phi_d_rad i := by
  have h := radians_mem i.phi_k h0 h1
  have ht : 0 < Real.tan (radians i.phi_k) :=
    Real.tan_pos_of_pos_of_lt_pi_div_two h.1 h.2
  have hq : 0 < Real.tan (radians i.phi_k) / i.gamma_m := div_pos ht hγ
  calc (0 : ℝ) = Real.arctan 0 := Real.arctan_zero.symm
    _ < phi_d_rad i := Real.arctan_strictMono hq

/-- The design friction angle is always below `π/2`. -/
theorem phi_d_lt_pi_div_two (i : Inputs) : phi_d_rad i < Real.pi / 2 :=
  Real.arctan_lt_pi_div_two _

/-- For a positive design angle, `α1` lies strictly between `π/4` and `π/2`. -/
theorem alpha1_mem (i : Inputs) (hφ : 0 < phi_d_rad i) :
    Real.pi / 4 < alpha1_rad i ∧ alpha1_rad i < Real.pi / 2 := by
  rw [alpha1_rad_eq]
  have := phi_d_lt_pi_div_two i
  constructor <;> linarith

/-- `tan α1 > 1` for a positive design angle. -/
theorem tan_alpha1_gt_one (i : Inputs) (hφ : 0 < phi_d_rad i) :
    1 < Real.tan (alpha1_rad i) := by
  have h := alpha1_mem i hφ
  have hp4 : (0 : ℝ) ≤ Real.pi / 4 := by positivity
  have := Real.tan_lt_tan_of_nonneg_of_lt_pi_div_two hp4 h.2 h.1
  rwa [Real.tan_pi_div_four] at this

/-- `tan φd > 0` for a positive design angle. -/
theorem tan_phi_d_pos (i : Inputs) (hφ : 0 < phi_d_rad i) :
    0 < Real.tan (phi_d_rad i) :=
  Real.tan_pos_of_pos_of_lt_pi_div_two hφ (phi_d_lt_pi_div_two i)

/-- `Nq` written with `α1`. -/
theorem Nq_eq_alpha1 (i : Inputs) :
    Nq i = Real.exp (Real.pi * Real.tan (phi_d_rad i)) * Real.tan (alpha1_rad i) ^ 2 := by
  rw [alpha1_rad_eq]
  unfold Nq radians
  rw [show (45 : ℝ) * (Real.pi / 180) = Real.pi / 4 by ring]

/-- `Nq > 1` for a positive design angle. -/
theorem Nq_gt_one (i : Inputs) (hφ : 0 < phi_d_rad i) : 1 < Nq i := by
  rw [Nq_eq_alpha1]
  have h1 : 1 < Real.exp (Real.pi * Real.tan (phi_d_rad i)) :=
    Real.one_lt_exp_iff.mpr (mul_pos Real.pi_pos (tan_phi_d_pos i hφ))
  have h2 : 1 < Real.tan (alpha1_rad i) ^ 2 :=
    one_lt_pow₀ (tan_alpha1_gt_one i hφ) two_ne_zero
  nlinarith

/-- `Nγ > 0` for a positive design angle. -/
theorem Ngamma_pos (i : Inputs) (hφ : 0 < phi_d_rad i) : 0 < Ngamma i := by
  unfold Ngamma
  have h1 := Nq_gt_one i hφ
  have h2 := tan_phi_d_pos i hφ
  nlinarith

/-- The design friction angle is strictly increasing in `φk` for fixed `γm`. -/
theorem phi_d_strict_mono (i j : Inputs) (h0 : 0 < i.phi_k) (h1 : j.phi_k < 90)
    (hγ : 0 < i.gamma_m) (hγij : i.gamma_m = j.gamma_m) (hij : i.phi_k < j.phi_k) :
    phi_d_rad i < phi_d_rad j := by
  have hri := radians_mem i.phi_k h0 (lt_trans hij h1)
  have hrj := radians_mem j.phi_k (lt_trans h0 hij) h1
  have hmono : radians i.phi_k < radians j.phi_k := by
    unfold radians
    exact mul_lt_mul_of_pos_right hij (by positivity)
  have htan : Real.tan (radians i.phi_k) < Real.tan (radians j.phi_k) :=
    Real.tan_lt_tan_of_nonneg_of_lt_pi_div_two (le_of_lt hri.1) hrj.2 hmono
  unfold phi_d_rad
  rw [← hγij]
  exact Real.arctan_strictMono (by gcongr)

/-- `Nq` is strictly increasing in the design friction angle. -/
theorem Nq_strict_mono (i j : Inputs) (h0 : 0 < phi_d_rad i)
    (hij : phi_d_rad i < phi_d_rad j) : Nq i < Nq j := by
  have h0j : 0 < phi_d_rad j := lt_trans h0 hij
  have hlt2 : phi_d_rad j < Real.pi / 2 := phi_d_lt_pi_div_two j
  have htan : Real.tan (phi_d_rad i) < Real.tan (phi_d_rad j) :=
    Real.tan_lt_tan_of_nonneg_of_lt_pi_div_two (le_of_lt h0) hlt2 hij
  have hai := alpha1_mem i h0
  have haj := alpha1_mem j h0j
  have hamono : alpha1_rad i < alpha1_rad j := by
    rw [alpha1_rad_eq, alpha1_rad_eq]
    linarith
  have htana : Real.tan (alpha1_rad i) < Real.tan (alpha1_rad j) :=
    Real.tan_lt_tan_of_nonneg_of_lt_pi_div_two
      (by linarith [Real.pi_pos] : (0 : ℝ) ≤ alpha1_rad i) haj.2 hamono
  have h1i := tan_alpha1_gt_one i h0
  have hsq : Real.tan (alpha1_rad i) ^ 2 < Real.tan (alpha1_rad j) ^ 2 :=
    pow_lt_pow_left₀ htana (by linarith) two_ne_zero
  have hexp : Real.exp (Real.pi * Real.tan (phi_d_rad i))
      < Real.exp (Real.pi * Real.tan (phi_d_rad j)) :=
    Real.exp_lt_exp.mpr (mul_lt_mul_of_pos_left htan Real.pi_pos)
  rw [Nq_eq_alpha1, Nq_eq_alpha1]
  have he1 : 0 < Real.exp (Real.pi * Real.tan (phi_d_rad i)) := Real.exp_pos _
  nlinarith

/-- `Nγ` is strictly increasing in the design friction angle. -/
theorem Ngamma_strict_mono (i j : Inputs) (h0 : 0 < phi_d_rad i)
    (hij : phi_d_rad i < phi_d_rad j) : Ngamma i < Ngamma j := by
  have h0j : 0 < phi_d_rad j := lt_trans h0 hij
  have htan : Real.tan (phi_d_rad i) < Real.tan (phi_d_rad j) :=
    Real.tan_lt_tan_of_nonneg_of_lt_pi_div_two (le_of_lt h0) (phi_d_lt_pi_div_two j) hij
  have hNq := Nq_strict_mono i j h0 hij
  have hNqi := Nq_gt_one i h0
  have hti := tan_phi_d_pos i h0
  unfold Ngamma
  nlinarith

/-- C6: For all `φk ∈ (0°, 90°)` and `γm > 0`, the bearing-capacity
factors satisfy `Nq > 1` and `Nγ ≥ 0`, and both are strictly increasing
in `φk` when `γm` is held fixed. -/
theorem c6_factors_monotone (i j : Inputs)
    (hφi0 : 0 < i.phi_k) (hφi1 : i.phi_k < 90)
    (hφj0 : 0 < j.phi_k) (hφj1 : j.phi_k < 90)
    (hγ : 0 < i.gamma_m) (hγij : i.gamma_m = j.gamma_m) :
    (1 < Nq i ∧ 0 ≤ Ngamma i)
      ∧ (i.phi_k < j.phi_k → Nq i < Nq j ∧ Ngamma i < Ngamma j) := by
  have hφi := phi_d_pos i hφi0 hφi1 hγ
  refine ⟨⟨Nq_gt_one i hφi, le_of_lt (Ngamma_pos i hφi)⟩, fun hij => ?_⟩
  have hmono := phi_d_strict_mono i j hφi0 hφj1 hγ hγij hij
  exact ⟨Nq_strict_mono i j hφi hmono, Ngamma_strict_mono i j hφi hmono⟩

/-- Witness for `c6_factors_monotone` at `φk = 30° < 45°`, `γm = 1`. -/
theorem c6_factors_monotone_witness :
    (1 < Nq ⟨30, 5, 19, 1, 350, 2, 1, 0⟩ ∧ 0 ≤ Ngamma ⟨30, 5, 19, 1, 350, 2, 1, 0⟩)
      ∧ (Nq ⟨30, 5, 19, 1, 350, 2, 1, 0⟩ < Nq ⟨45, 5, 19, 1, 350, 2, 1, 0⟩
          ∧ Ngamma ⟨30, 5, 19, 1, 350, 2, 1, 0⟩ < Ngamma ⟨45, 5, 19, 1, 350, 2, 1, 0⟩) := by
  have h := c6_factors_monotone ⟨30, 5, 19, 1, 350, 2, 1, 0⟩ ⟨45, 5, 19, 1, 350, 2, 1, 0⟩
    (by norm_num) (by norm_num) (by norm_num) (by norm_num) (by norm_num) rfl
  exact ⟨h.1, h.2 (by norm_num)⟩

/-- The design bearing capacity is positive for physically valid inputs. -/
theorem sigma_d_pos (i : Inputs) (hγ : 0 < i.gamma) (ha : 0 ≤ i.attraksjon)
    (hD : 0 ≤ i.D) (hB : 0 < B_prime i) (hφ : 0 < phi_d_rad i) :
    0 < sigma_d i := by
  have hNq := Nq_gt_one i hφ
  have hNγ := Ngamma_pos i hφ
  have hγD : 0 ≤ i.gamma * i.D := mul_nonneg (le_of_lt hγ) hD
  have hsum : 0 ≤ i.gamma * i.D + i.attraksjon := by linarith
  have h2 : (i.gamma * i.D + i.attraksjon) * 1 ≤ (i.gamma * i.D + i.attraksjon) * Nq i :=
    mul_le_mul_of_nonneg_left (le_of_lt hNq) hsum
  have h3 : 0 < 0.5 * i.gamma * B_prime i * Ngamma i := by positivity
  unfold sigma_d q_sur
  nlinarith

/-- C7: Holding all else fixed, increasing the vertical load `V` strictly
increases utilization; increasing the width `B` strictly decreases the
actual pressure `q` and strictly decreases utilization. -/
theorem c7_utilization_monotone
    (φk a γ γm V B D e v1 v2 b1 b2 : ℝ)
    (hφ0 : 0 < φk) (hφ1 : φk < 90) (hγm : 0 < γm) (hγ : 0 < γ) (ha : 0 ≤ a)
    (hD : 0 ≤ D) (hV : 0 < V) (hB : 2 * |e| < B) (hv : v1 < v2)
    (hb1 : 2 * |e| < b1) (hb : b1 < b2) :
    utnyttelse ⟨φk, a, γ, γm, v1, B, D, e⟩ < utnyttelse ⟨φk, a, γ, γm, v2, B, D, e⟩
      ∧ q_faktisk ⟨φk, a, γ, γm, V, b2, D, e⟩ < q_faktisk ⟨φk, a, γ, γm, V, b1, D, e⟩
      ∧ utnyttelse ⟨φk, a, γ, γm, V, b2, D, e⟩ < utnyttelse ⟨φk, a, γ, γm, V, b1, D, e⟩ := by
  have hφ : 0 < phi_d_rad ⟨φk, a, γ, γm, v1, B, D, e⟩ :=
    phi_d_pos _ hφ0 hφ1 hγm
  have hBp : 0 < B_prime ⟨φk, a, γ, γm, v1, B, D, e⟩ := by
    unfold B_prime
    simp only
    linarith
  have hσ : 0 < sigma_d ⟨φk, a, γ, γm, v1, B, D, e⟩ :=
    sigma_d_pos _ hγ ha hD hBp hφ
  have hB1 : 0 < B_prime ⟨φk, a, γ, γm, V, b1, D, e⟩ := by
    unfold B_prime
    simp only
    linarith
  have hB2 : 0 < B_prime ⟨φk, a, γ, γm, V, b2, D, e⟩ := by
    unfold B_prime
    simp only
    linarith
  have hB12 : B_prime ⟨φk, a, γ, γm, V, b1, D, e⟩ < B_prime ⟨φk, a, γ, γm, V, b2, D, e⟩ := by
    unfold B_prime
    simp only
    linarith
  have hφb : 0 < phi_d_rad ⟨φk, a, γ, γm, V, b1, D, e⟩ := phi_d_pos _ hφ0 hφ1 hγm
  have hσ1 : 0 < sigma_d ⟨φk, a, γ, γm, V, b1, D, e⟩ := sigma_d_pos _ hγ ha hD hB1 hφb
  have hσ12 : sigma_d ⟨φk, a, γ, γm, V, b1, D, e⟩ < sigma_d ⟨φk, a, γ, γm, V, b2, D, e⟩ := by
    have hNγ : 0 < Ngamma ⟨φk, a, γ, γm, V, b1, D, e⟩ := Ngamma_pos _ hφb
    have heq : Ngamma ⟨φk, a, γ, γm, V, b2, D, e⟩ = Ngamma ⟨φk, a, γ, γm, V, b1, D, e⟩ := rfl
    have heq2 : Nq ⟨φk, a, γ, γm, V, b2, D, e⟩ = Nq ⟨φk, a, γ, γm, V, b1, D, e⟩ := rfl
    unfold sigma_d q_sur
    rw [heq, heq2]
    simp only
    unfold B_prime
    simp only
    nlinarith [mul_pos hγ (mul_pos (sub_pos.mpr hb) hNγ)]
  have hq12 : q_faktisk ⟨φk, a, γ, γm, V, b2, D, e⟩ < q_faktisk ⟨φk, a, γ, γm, V, b1, D, e⟩ := by
    unfold q_faktisk
    simp only
    exact div_lt_div_of_pos_left hV hB1 hB12
  refine ⟨?_, hq12, ?_⟩
  · unfold utnyttelse q_faktisk
    simp only
    have h1 : v1 / B_prime ⟨φk, a, γ, γm, v1, B, D, e⟩
        < v2 / B_prime ⟨φk, a, γ, γm, v1, B, D, e⟩ := by gcongr
    have hmm : B_prime ⟨φk, a, γ, γm, v2, B, D, e⟩ = B_prime ⟨φk, a, γ, γm, v1, B, D, e⟩ := rfl
    have hσeq : sigma_d ⟨φk, a, γ, γm, v2, B, D, e⟩ = sigma_d ⟨φk, a, γ, γm, v1, B, D, e⟩ := rfl
    rw [hmm, hσeq]
    gcongr
  · unfold utnyttelse
    have hq1 : 0 < q_faktisk ⟨φk, a, γ, γm, V, b1, D, e⟩ := div_pos hV hB1
    have hq2 : 0 < q_faktisk ⟨φk, a, γ, γm, V, b2, D, e⟩ := div_pos hV hB2
    have hσ2 : 0 < sigma_d ⟨φk, a, γ, γm, V, b2, D, e⟩ := lt_trans hσ1 hσ12
    have : q_faktisk ⟨φk, a, γ, γm, V, b2, D, e⟩ / sigma_d ⟨φk, a, γ, γm, V, b2, D, e⟩
        < q_faktisk ⟨φk, a, γ, γm, V, b1, D, e⟩ / sigma_d ⟨φk, a, γ, γm, V, b1, D, e⟩ := by
      rw [div_lt_div_iff₀ hσ2 hσ1]
      nlinarith
    nlinarith

/-- Witness for `c7_utilization_monotone` at the default soil with
`v1 = 300 < 400 = v2` and `b1 = 2 < 3 = b2`. -/
theorem c7_utilization_monotone_witness :
    utnyttelse ⟨45, 5, 19, 1, 300, 2, 1, 0⟩ < utnyttelse ⟨45, 5, 19, 1, 400, 2, 1, 0⟩
      ∧ q_faktisk ⟨45, 5, 19, 1, 350, 3, 1, 0⟩ < q_faktisk ⟨45, 5, 19, 1, 350, 2, 1, 0⟩
      ∧ utnyttelse ⟨45, 5, 19, 1, 350, 3, 1, 0⟩ < utnyttelse ⟨45, 5, 19, 1, 350, 2, 1, 0⟩ :=
  c7_utilization_monotone 45 5 19 1 350 2 1 0 300 400 2 3
    (by norm_num) (by norm_num) (by norm_num) (by norm_num) (by norm_num)
    (by norm_num) (by norm_num) (by norm_num) (by norm_num) (by norm_num) (by norm_num)

/-- The last `theta` sample is the end of the range, `π/2 + φd`. -/
theorem theta_val_24 (i : Inputs) : theta_val i 24 = Real.pi / 2 + phi_d_rad i := by
  rw [theta_val_eq]
  push_cast
  ring

/-- The point angle of the last spiral sample is exactly `-α1`. -/
theorem angle_24 (i : Inputs) : alpha1_rad i - theta_val i 24 = -alpha1_rad i := by
  rw [theta_val_24, alpha1_rad_eq]
  ring

/-- `spiral_pts[-1]` is the sample at index 24. -/
theorem p_last_spiral_eq (i : Inputs) : p_last_spiral i = spiral_pt i 24 := by
  unfold p_last_spiral spiral_pts
  rw [List.range_succ]
  simp

/-- For a positive design angle, a foundation at least 2 m wide (effective)
and at most 1 m deep, the last sampled spiral point lies strictly above
the ground surface. -/
theorem last_spiral_y_pos (i : Inputs) (hφ : 0 < phi_d_rad i)
    (hB2 : 2 ≤ B_prime i) (hD : i.D ≤ 1) : 0 < (spiral_pt i 24).2 := by
  have hα := alpha1_mem i hφ
  have hπ := Real.pi_pos
  have hcos : 0 < Real.cos (alpha1_rad i) :=
    Real.cos_pos_of_mem_Ioo ⟨by linarith, hα.2⟩
  have hsin : 0 < Real.sin (alpha1_rad i) :=
    Real.sin_pos_of_pos_of_lt_pi (by linarith) (by linarith)
  have htan : 1 < Real.tan (alpha1_rad i) := tan_alpha1_gt_one i hφ
  have h1 : 1 < Real.sin (alpha1_rad i) / Real.cos (alpha1_rad i) := by
    rwa [Real.tan_eq_sin_div_cos] at htan
  have hθ : 0 ≤ theta_val i 24 * Real.tan (phi_d_rad i) := by
    rw [theta_val_24]
    have h2 := tan_phi_d_pos i hφ
    have h3 : 0 < Real.pi / 2 + phi_d_rad i := by linarith
    positivity
  have hexp : 1 ≤ Real.exp (theta_val i 24 * Real.tan (phi_d_rad i)) :=
    Real.one_le_exp hθ
  unfold spiral_pt
  simp only
  rw [angle_24, Real.sin_neg]
  unfold y_base r0
  have hq : 0 < Real.sin (alpha1_rad i) / Real.cos (alpha1_rad i) := by positivity
  have e1 : Real.sin (alpha1_rad i) / Real.cos (alpha1_rad i)
      ≤ Real.exp (theta_val i 24 * Real.tan (phi_d_rad i))
        * (Real.sin (alpha1_rad i) / Real.cos (alpha1_rad i)) :=
    le_mul_of_one_le_left (le_of_lt hq) hexp
  have e2 : Real.exp (theta_val i 24 * Real.tan (phi_d_rad i))
        * (Real.sin (alpha1_rad i) / Real.cos (alpha1_rad i))
      ≤ B_prime i / 2
        * (Real.exp (theta_val i 24 * Real.tan (phi_d_rad i))
            * (Real.sin (alpha1_rad i) / Real.cos (alpha1_rad i))) := by
    have hpos : 0 ≤ Real.exp (theta_val i 24 * Real.tan (phi_d_rad i))
        * (Real.sin (alpha1_rad i) / Real.cos (alpha1_rad i)) := by positivity
    exact le_mul_of_one_le_left hpos (by linarith)
  have key : 1 < B_prime i / 2 / Real.cos (alpha1_rad i)
      * Real.exp (theta_val i 24 * Real.tan (phi_d_rad i)) * Real.sin (alpha1_rad i) := by
    have h4 : 1 < B_prime i / 2
        * (Real.exp (theta_val i 24 * Real.tan (phi_d_rad i))
            * (Real.sin (alpha1_rad i) / Real.cos (alpha1_rad i))) :=
      lt_of_lt_of_le (lt_of_lt_of_le h1 e1) e2
    calc (1 : ℝ) < _ := h4
      _ = B_prime i / 2 / Real.cos (alpha1_rad i)
          * Real.exp (theta_val i 24 * Real.tan (phi_d_rad i)) * Real.sin (alpha1_rad i) := by
        ring
  have hre : -i.D - B_prime i / 2 / Real.cos (alpha1_rad i)
        * Real.exp (theta_val i 24 * Real.tan (phi_d_rad i)) * -Real.sin (alpha1_rad i)
      = B_prime i / 2 / Real.cos (alpha1_rad i)
        * Real.exp (theta_val i 24 * Real.tan (phi_d_rad i)) * Real.sin (alpha1_rad i)
        - i.D := by
    ring
  rw [hre]
  linarith

/-- C10: The exit point's y-coordinate is always exactly 0, and the exit
offset is always taken from the absolute value of the last spiral point's
y-coordinate — yet at the default inputs (`φk = 32°`, `γm = 1.25`,
`B = 2`, `D = 1`, `e = 0`) the last sampled spiral point already lies
strictly above the ground surface. -/
theorem c10_exit_on_ground :
    (∀ i : Inputs, (p_exit i).2 = 0)
      ∧ (∀ i : Inputs,
          dx_exit i = |(p_last_spiral i).2| * Real.tan (radians 90 - exit_angle i))
      ∧ 0 < (p_last_spiral ⟨32, 5, 19, 1.25, 350, 2, 1, 0⟩).2 := by
  refine ⟨fun i => rfl, fun i => rfl, ?_⟩
  rw [p_last_spiral_eq]
  have hφ : 0 < phi_d_rad ⟨32, 5, 19, 1.25, 350, 2, 1, 0⟩ :=
    phi_d_pos _ (by norm_num) (by norm_num) (by norm_num)
  have hB : B_prime ⟨32, 5, 19, 1.25, 350, 2, 1, 0⟩ = 2 := by
    norm_num [B_prime]
  exact last_spiral_y_pos _ hφ (le_of_eq hB.symm) (le_refl 1)

/-- Folding `min` over a list never exceeds the initial value. -/
theorem foldr_min_le_init (l : List ℝ) (b : ℝ) : l.foldr min b ≤ b := by
  induction l with
  | nil => simp
  | cons x t ih =>
    simp only [List.foldr_cons]
    exact le_trans (min_le_right _ _) ih

/-- Folding `min` over a list bounds every member. -/
theorem foldr_min_le_mem {x : ℝ} {l : List ℝ} (b : ℝ) (h : x ∈ l) :
    l.foldr min b ≤ x := by
  induction l with
  | nil => cases h
  | cons y t ih =>
    simp only [List.foldr_cons]
    rcases List.mem_cons.mp h with h1 | h2
    · exact h1 ▸ min_le_left _ _
    · exact le_trans (min_le_right _ _) (ih h2)

/-- `minY` bounds every member of the list. -/
theorem minY_le {x : ℝ} {l : List ℝ} (h : x ∈ l) : minY l ≤ x := by
  cases l with
  | nil => cases h
  | cons y t =>
    simp only [minY]
    rcases List.mem_cons.mp h with h1 | h2
    · exact h1 ▸ foldr_min_le_init t y
    · exact foldr_min_le_mem y h2

/-- With `φk = 45°` the design angle is `atan(1/γm)` exactly. -/
theorem phi_d_rad_eq_arctan_inv (i : Inputs) (h : i.phi_k = 45) :
    phi_d_rad i = Real.arctan (1 / i.gamma_m) := by
  unfold phi_d_rad radians
  rw [h, show (45 : ℝ) * (Real.pi / 180) = Real.pi / 4 by ring, Real.tan_pi_div_four]

/-- C5 (amended): the exit-distance summary is `|exit.x − side·(B/2)|`
as claimed, but the displayed depth-below-foundation summary is the
active-wedge half-height `h = (B'/2)·tan(45° + φd/2)`, not the sampled
spiral minimum. -/
theorem c5_amended_summaries (i : Inputs) :
    dist_kant i = |(p_exit i).1 - side i * (i.B / 2)|
      ∧ h_kile i = B_prime i / 2 * Real.tan (Real.pi / 4 + phi_d_rad i / 2) := by
  refine ⟨rfl, ?_⟩
  unfold h_kile
  rw [alpha1_rad_eq]

/-- C5 counterexample: at `φk = 45°`, `γm = 1`, `B = 2`, `D = 1`, `e = 0`
the reported depth below foundation level (`h_kile`) differs from
`|min(point.y over the spiral points)| − D`: the deepest sampled spiral
point lies strictly below the wedge apex. -/
theorem c5_counterexample_depth :
    ¬ (h_kile ⟨45, 5, 19, 1, 350, 2, 1, 0⟩
        = |minY ((spiral_pts ⟨45, 5, 19, 1, 350, 2, 1, 0⟩).map Prod.snd)| - 1) := by
  have hπ := Real.pi_pos
  have hφ : phi_d_rad ⟨45, 5, 19, 1, 350, 2, 1, 0⟩ = Real.pi / 4 := by
    rw [phi_d_rad_eq_arctan_inv _ rfl]
    norm_num [Real.arctan_one]
  have hα : alpha1_rad ⟨45, 5, 19, 1, 350, 2, 1, 0⟩ = 3 * Real.pi / 8 := by
    rw [alpha1_rad_eq, hφ]
    ring
  have hB : B_prime ⟨45, 5, 19, 1, 350, 2, 1, 0⟩ = 2 := by norm_num [B_prime]
  have hh : h_kile ⟨45, 5, 19, 1, 350, 2, 1, 0⟩ = Real.tan (3 * Real.pi / 8) := by
    unfold h_kile
    rw [hα, hB]
    norm_num
  have hθ4 : theta_val ⟨45, 5, 19, 1, 350, 2, 1, 0⟩ 4 = Real.pi / 8 := by
    rw [theta_val_eq, hφ]
    push_cast
    ring
  have hy4 : (spiral_pt ⟨45, 5, 19, 1, 350, 2, 1, 0⟩ 4).2
      = -1 - 1 / Real.cos (3 * Real.pi / 8) * Real.exp (Real.pi / 8) * Real.sin (Real.pi / 4) := by
    unfold spiral_pt
    simp only
    rw [hα, hθ4, hφ, Real.tan_pi_div_four]
    unfold y_base r0
    rw [hα, hB]
    rw [show 3 * Real.pi / 8 - Real.pi / 8 = Real.pi / 4 by ring]
    norm_num
  have hmem : (spiral_pt ⟨45, 5, 19, 1, 350, 2, 1, 0⟩ 4).2
      ∈ (spiral_pts ⟨45, 5, 19, 1, 350, 2, 1, 0⟩).map Prod.snd := by
    apply List.mem_map_of_mem
    unfold spiral_pts
    apply List.mem_map_of_mem
    simp
  have hmin := minY_le hmem
  have hcos : 0 < Real.cos (3 * Real.pi / 8) :=
    Real.cos_pos_of_mem_Ioo ⟨by linarith, by linarith⟩
  have hsin38 : Real.sin (3 * Real.pi / 8) < 1 := by
    have h := Real.sin_lt_sin_of_lt_of_le_pi_div_two
      (x := 3 * Real.pi / 8) (y := Real.pi / 2) (by linarith) (le_refl _) (by linarith)
    rwa [Real.sin_pi_div_two] at h
  have hexp_gt : Real.sqrt 2 < Real.exp (Real.pi / 8) := by
    rw [Real.sqrt_lt' (Real.exp_pos _)]
    have hsq : Real.exp (Real.pi / 8) ^ 2 = Real.exp (Real.pi / 4) := by
      rw [← Real.exp_nat_mul]
      norm_num
      ring_nf
    rw [hsq]
    have hl2 : Real.log 2 < Real.pi / 4 := by
      have h1 := Real.log_two_lt_d9
      have h2 := Real.pi_gt_d6
      norm_num at h1 h2 ⊢
      linarith
    calc (2 : ℝ) = Real.exp (Real.log 2) := (Real.exp_log (by norm_num)).symm
      _ < Real.exp (Real.pi / 4) := Real.exp_lt_exp.mpr hl2
  have hkey : Real.sin (3 * Real.pi / 8) < Real.exp (Real.pi / 8) * Real.sin (Real.pi / 4) := by
    rw [Real.sin_pi_div_four]
    have h2 : Real.sqrt 2 * (Real.sqrt 2 / 2) = 1 := by
      nlinarith [Real.mul_self_sqrt (show (0 : ℝ) ≤ 2 by norm_num)]
    have hpos : (0 : ℝ) < Real.sqrt 2 / 2 := by positivity
    have h3 : Real.sqrt 2 * (Real.sqrt 2 / 2) < Real.exp (Real.pi / 8) * (Real.sqrt 2 / 2) :=
      mul_lt_mul_of_pos_right hexp_gt hpos
    linarith
  intro hcontra
  have habs : -minY ((spiral_pts ⟨45, 5, 19, 1, 350, 2, 1, 0⟩).map Prod.snd)
      ≤ |minY ((spiral_pts ⟨45, 5, 19, 1, 350, 2, 1, 0⟩).map Prod.snd)| := neg_le_abs _
  have hy : -(spiral_pt ⟨45, 5, 19, 1, 350, 2, 1, 0⟩ 4).2
      ≤ |minY ((spiral_pts ⟨45, 5, 19, 1, 350, 2, 1, 0⟩).map Prod.snd)| :=
    le_trans (by linarith) habs
  rw [hy4] at hy
  have hA : Real.sin (3 * Real.pi / 8) / Real.cos (3 * Real.pi / 8)
      < 1 / Real.cos (3 * Real.pi / 8) * Real.exp (Real.pi / 8) * Real.sin (Real.pi / 4) := by
    rw [show 1 / Real.cos (3 * Real.pi / 8) * Real.exp (Real.pi / 8) * Real.sin (Real.pi / 4)
        = Real.exp (Real.pi / 8) * Real.sin (Real.pi / 4) / Real.cos (3 * Real.pi / 8) by ring]
    gcongr
  have htan_eq : Real.tan (3 * Real.pi / 8)
      = Real.sin (3 * Real.pi / 8) / Real.cos (3 * Real.pi / 8) :=
    Real.tan_eq_sin_div_cos _
  rw [hh] at hcontra
  linarith

/-- C8: The spiral arc is built from the apex half-height
`h = (B'/2)·tan(α1)` with `α1 = 45° + φd/2`, the apex directly below the
effective-width centre at depth `D + h`, the origin radius
`r0 = (B'/2)/cos(α1)`, and 25 (≥ 20) evenly spaced samples of
`θ ∈ [0, π/2 + φd]`, each giving a point at radius `r0·exp(θ·tan φd)`
and angle `α1 − θ` from horizontal, anchored at the outer edge of the
effective width and directed toward the chosen side. -/
theorem c8_spiral_geometry (i : Inputs) :
    alpha1_rad i = Real.pi / 4 + phi_d_rad i / 2
      ∧ h_kile i = B_prime i / 2 * Real.tan (alpha1_rad i)
      ∧ p_apex i = ((x_eff_start i + x_eff_end i) / 2, -(i.D + h_kile i))
      ∧ r0 i = B_prime i / 2 / Real.cos (alpha1_rad i)
      ∧ (spiral_pts i).length = 25 ∧ 20 ≤ (spiral_pts i).length
      ∧ theta_val i 0 = 0 ∧ theta_val i 24 = Real.pi / 2 + phi_d_rad i
      ∧ (∀ k : ℕ, theta_val i (k + 1) - theta_val i k = (Real.pi / 2 + phi_d_rad i) / 24)
      ∧ (∀ (k : ℕ) (hk : k < (spiral_pts i).length),
          (spiral_pts i).get ⟨k, hk⟩
            = (x_eff_end i
                  + side i * (r0 i * Real.exp (theta_val i k * Real.tan (phi_d_rad i)))
                    * Real.cos (alpha1_rad i - theta_val i k),
                -i.D
                  - r0 i * Real.exp (theta_val i k * Real.tan (phi_d_rad i))
                    * Real.sin (alpha1_rad i - theta_val i k))) := by
  refine ⟨alpha1_rad_eq i, rfl, ?_, rfl, by simp [spiral_pts], by simp [spiral_pts],
    ?_, theta_val_24 i, ?_, ?_⟩
  · unfold p_apex x_eff_start x_eff_end y_base h_kile
    refine Prod.ext ?_ ?_ <;> simp only <;> ring
  · rw [theta_val_eq]
    norm_num
  · intro k
    rw [theta_val_eq, theta_val_eq]
    push_cast
    ring
  · intro k hk
    have hk25 : k < 25 := by simpa [spiral_pts] using hk
    unfold spiral_pts
    simp only [List.get_eq_getElem, List.getElem_map, List.getElem_range]
    rfl

/-- Witness for `c8_spiral_geometry`, projected at the default input and
sample index 3. -/
theorem c8_spiral_geometry_witness :
    theta_val ⟨32, 5, 19, 1.25, 350, 2, 1, 0⟩ 24
        = Real.pi / 2 + phi_d_rad ⟨32, 5, 19, 1.25, 350, 2, 1, 0⟩
      ∧ (spiral_pts ⟨32, 5, 19, 1.25, 350, 2, 1, 0⟩).get
            ⟨3, by simp [spiral_pts]⟩
          = (x_eff_end ⟨32, 5, 19, 1.25, 350, 2, 1, 0⟩
                + side ⟨32, 5, 19, 1.25, 350, 2, 1, 0⟩
                  * (r0 ⟨32, 5, 19, 1.25, 350, 2, 1, 0⟩
                      * Real.exp (theta_val ⟨32, 5, 19, 1.25, 350, 2, 1, 0⟩ 3
                          * Real.tan (phi_d_rad ⟨32, 5, 19, 1.25, 350, 2, 1, 0⟩)))
                  * Real.cos (alpha1_rad ⟨32, 5, 19, 1.25, 350, 2, 1, 0⟩
                      - theta_val ⟨32, 5, 19, 1.25, 350, 2, 1, 0⟩ 3),
              -(1 : ℝ)
                - r0 ⟨32, 5, 19, 1.25, 350, 2, 1, 0⟩
                  * Real.exp (theta_val ⟨32, 5, 19, 1.25, 350, 2, 1, 0⟩ 3
                      * Real.tan (phi_d_rad ⟨32, 5, 19, 1.25, 350, 2, 1, 0⟩))
                  * Real.sin (alpha1_rad ⟨32, 5, 19, 1.25, 350, 2, 1, 0⟩
                      - theta_val ⟨32, 5, 19, 1.25, 350, 2, 1, 0⟩ 3)) := by
  have h := c8_spiral_geometry ⟨32, 5, 19, 1.25, 350, 2, 1, 0⟩
  exact ⟨h.2.2.2.2.2.2.2.1, h.2.2.2.2.2.2.2.2.2 3 (by simp [spiral_pts])⟩

/-- C3 counterexample: with `B = 2` and `e = 1` (so the raw width
`B − 2·|e|` is `0 ≤ 0`), the code does **not** clamp the effective width
to the 0.1 m floor: `B_prime` is exactly `0`. -/
theorem c3_counterexample_no_clamp :
    B_prime ⟨32, 5, 19, 1.25, 350, 2, 1, 1⟩ = 0 ∧
      B_prime ⟨32, 5, 19, 1.25, 350, 2, 1, 1⟩ ≠ 0.1 := by
  constructor <;> norm_num [B_prime]

/-- C3 (amended): the code computes `B' = B − 2·|e|` with no clamping at
all; the divisor of `q = V/B'` stays positive only because the
eccentricity slider restricts `|e| ≤ B/3`, which keeps `B' ≥ B/3 > 0`. -/
theorem c3_amended_effective_width (i : Inputs) :
    B_prime i = i.B - 2 * |i.e|
      ∧ (0 < i.B → |i.e| ≤ i.B / 3 → i.B / 3 ≤ B_prime i ∧ 0 < B_prime i) := by
  refine ⟨rfl, fun hB he => ?_⟩
  unfold B_prime
  constructor <;> linarith

/-- Witness for `c3_amended_effective_width` at `B = 3`, `e = 1`. -/
theorem c3_amended_effective_width_witness :
    (0 : ℝ) < 3 ∧ |(1 : ℝ)| ≤ 3 / 3
      ∧ ((3 : ℝ) / 3 ≤ B_prime ⟨32, 5, 19, 1.25, 350, 3, 1, 1⟩
          ∧ 0 < B_prime ⟨32, 5, 19, 1.25, 350, 3, 1, 1⟩) :=
  ⟨by norm_num, by norm_num,
    (c3_amended_effective_width ⟨32, 5, 19, 1.25, 350, 3, 1, 1⟩).2 (by norm_num) (by norm_num)⟩

/-- C4 counterexample: with `materialFactor = 0` the evaluation does
**not** fail with an `InvalidParameter` error — the script has no
validation and no error path, so the run still produces an output
bundle. -/
theorem c4_counterexample_no_failure :
    ∃ o : Outputs, evaluateE ⟨32, 5, 19, 0, 350, 2, 1, 0⟩ = Except.ok o :=
  ⟨evaluate ⟨32, 5, 19, 0, 350, 2, 1, 0⟩, rfl⟩

/-- C4 (amended): the script performs no input validation whatsoever:
for every input vector — including `materialFactor ≤ 0`, friction angles
outside `(0°, 90°)`, non-positive widths, or non-positive computed
bearing capacity — evaluation completes and returns an output bundle;
no `InvalidParameter` error is ever raised. -/
theorem c4_amended_total_evaluation (i : Inputs) :
    evaluateE i = Except.ok (evaluate i) := rfl

/-- C9 (amended): the polygon is the stated ordered vertex sequence, the
exit point lies on the ground surface at horizontal offset
`|y_last| / tan(α2)` from the last spiral point toward the wedge side
with `α2 = 45° − φd/2`, and the patch is closed by the explicit
`closed=True` edge — but the polygon's (shoelace) area is **not**
positive for every admissible input (see the counterexample). -/
theorem c9_amended_polygon (i : Inputs) :
    poly_pts i
        = [(x_eff_start i, -i.D), p_apex i] ++ spiral_pts i
            ++ [((p_last_spiral i).1 + side i * dx_exit i, 0), (x_eff_start i, 0)]
      ∧ (p_exit i).2 = 0
      ∧ dx_exit i = |(p_last_spiral i).2| / Real.tan (exit_angle i)
      ∧ exit_angle i = Real.pi / 4 - phi_d_rad i / 2
      ∧ (failure_poly i).closed = true := by
  refine ⟨rfl, rfl, ?_, exit_angle_eq i, rfl⟩
  unfold dx_exit
  rw [show radians 90 - exit_angle i = Real.pi / 2 - exit_angle i by unfold radians; ring,
    Real.tan_pi_div_two_sub, div_eq_mul_inv]

/-- `pathSum` over an appended list splits at the junction. -/
theorem pathSum_append (l1 l2 : List (ℝ × ℝ)) (h1 : l1 ≠ []) (h2 : l2 ≠ []) :
    pathSum (l1 ++ l2)
      = pathSum l1 + cross2 (l1.getLastD (0, 0)) (l2.headD (0, 0)) + pathSum l2 := by
  induction l1 with
  | nil => exact absurd rfl h1
  | cons a t ih =>
    cases t with
    | nil =>
      cases l2 with
      | nil => exact absurd rfl h2
      | cons c t2 =>
        show cross2 a c + pathSum (c :: t2) = pathSum [a] + cross2 a c + pathSum (c :: t2)
        simp [pathSum]
    | cons b t' =>
      have hne : (b :: t') ≠ [] := List.cons_ne_nil b t'
      have hstep : pathSum ((a :: b :: t') ++ l2) = cross2 a b + pathSum ((b :: t') ++ l2) := rfl
      rw [hstep, ih hne]
      have hlast : (a :: b :: t').getLastD (0, 0) = (b :: t').getLastD (0, 0) := by
        simp [List.getLastD_cons]
      rw [hlast]
      show _ = cross2 a b + pathSum (b :: t') + _ + _
      ring

/-- The last element of a mapped range. -/
theorem getLastD_map_range (f : ℕ → ℝ × ℝ) (n : ℕ) (d : ℝ × ℝ) :
    ((List.range (n + 1)).map f).getLastD d = f n := by
  rw [List.range_succ]
  simp

/-- The head of a mapped range. -/
theorem headD_map_range (f : ℕ → ℝ × ℝ) (n : ℕ) (d : ℝ × ℝ) :
    ((List.range (n + 1)).map f).headD d = f 0 := by
  have h : List.range (n + 1) = 0 :: List.range' 1 n := by
    rw [List.range_eq_range']
    rfl
  rw [h]
  simp

/-- `pathSum` of consecutive samples of a function over a range. -/
theorem pathSum_map_range (f : ℕ → ℝ × ℝ) (n : ℕ) :
    pathSum ((List.range (n + 1)).map f)
      = ∑ j in Finset.range n, cross2 (f j) (f (j + 1)) := by
  induction n with
  | zero => simp [pathSum]
  | succ m ih =>
    rw [List.range_succ (n := m + 1), List.map_append]
    have hne1 : (List.range (m + 1)).map f ≠ [] := by simp
    have hne2 : ([m + 1].map f) ≠ [] := by simp
    rw [pathSum_append _ _ hne1 hne2, ih, getLastD_map_range]
    simp [pathSum, Finset.sum_range_succ]

/-- A mapped range starts with the image of `0`. -/
theorem map_range_eq_cons (f : ℕ → ℝ × ℝ) (n : ℕ) :
    (List.range (n + 1)).map f = f 0 :: (List.range' 1 n).map f := by
  rw [List.range_eq_range']
  rfl

/-- `getLastD` looks only at the right part of an append. -/
theorem getLastD_append_right (l1 l2 : List (ℝ × ℝ)) (h : l2 ≠ []) (d : ℝ × ℝ) :
    (l1 ++ l2).getLastD d = l2.getLastD d := by
  cases l2 with
  | nil => exact absurd rfl h
  | cons c t2 =>
    induction l1 generalizing d with
    | nil => rfl
    | cons a t ih =>
      rw [List.cons_append, List.getLastD_cons, ih a, List.getLastD_cons, List.getLastD_cons]

/-- The design friction angle of the `mkInput9` family is `phi9`. -/
theorem phi_d_mk9 (gm : ℝ) : phi_d_rad (mkInput9 gm) = phi9 gm :=
  phi_d_rad_eq_arctan_inv _ rfl

/-- `phi9` is positive for a positive material factor. -/
theorem phi9_pos (gm : ℝ) (hgm : 0 < gm) : 0 < phi9 gm := by
  unfold phi9
  calc (0 : ℝ) = Real.arctan 0 := Real.arctan_zero.symm
    _ < _ := Real.arctan_strictMono (by positivity)

/-- `phi9` stays below `π/2`. -/
theorem phi9_lt (gm : ℝ) : phi9 gm < Real.pi / 2 := Real.arctan_lt_pi_div_two _

/-- `cos (alpha9 gm)` is positive for a positive material factor. -/
theorem cos_alpha9_pos (gm : ℝ) (hgm : 0 < gm) : 0 < Real.cos (alpha9 gm) := by
  have h1 := phi9_pos gm hgm
  have h2 := phi9_lt gm
  have hπ := Real.pi_pos
  exact Real.cos_pos_of_mem_Ioo ⟨by unfold alpha9; linarith, by unfold alpha9; linarith⟩

/-- `sin (alpha9 gm)` is positive for a positive material factor. -/
theorem sin_alpha9_pos (gm : ℝ) (hgm : 0 < gm) : 0 < Real.sin (alpha9 gm) := by
  have h1 := phi9_pos gm hgm
  have h2 := phi9_lt gm
  have hπ := Real.pi_pos
  exact Real.sin_pos_of_pos_of_lt_pi (by unfold alpha9; linarith) (by unfold alpha9; linarith)

/-- `r9` is positive for a positive material factor. -/
theorem r9_pos (gm : ℝ) (hgm : 0 < gm) (k : ℕ) : 0 < r9 gm k := by
  unfold r9
  exact mul_pos (div_pos one_half_pos (cos_alpha9_pos gm hgm)) (Real.exp_pos _)

/-- The point angle of the last sample along the family is `-α1`. -/
theorem angle24_mk9 (gm : ℝ) : alpha9 gm - theta9 gm 24 = -alpha9 gm := by
  unfold theta9 alpha9
  push_cast
  ring

/-- The spiral points of the `mkInput9` family in polar form about the
outer effective edge `(1/2, 0)`. -/
theorem spiral_pt_mk9 (gm : ℝ) (k : ℕ) :
    spiral_pt (mkInput9 gm) k
      = (1 / 2 + r9 gm k * Real.cos (alpha9 gm - theta9 gm k),
          -(r9 gm k * Real.sin (alpha9 gm - theta9 gm k))) := by
  have hφ := phi_d_mk9 gm
  have hθ : theta_val (mkInput9 gm) k = theta9 gm k := by
    rw [theta_val_eq, hφ]
    rfl
  have hα : alpha1_rad (mkInput9 gm) = alpha9 gm := by
    rw [alpha1_rad_eq, hφ]
    rfl
  have hB : B_prime (mkInput9 gm) = 1 := by
    unfold B_prime mkInput9
    norm_num
  have hside : side (mkInput9 gm) = 1 := by
    unfold side mkInput9
    norm_num
  have hxe : x_eff_end (mkInput9 gm) = 1 / 2 := by
    unfold x_eff_end
    rw [hside, hB]
    show (mkInput9 gm).e + 1 * 1 / 2 = 1 / 2
    norm_num [mkInput9]
  have hyb : y_base (mkInput9 gm) = 0 := by
    unfold y_base mkInput9
    norm_num
  have hr0 : r0 (mkInput9 gm) = 1 / 2 / Real.cos (alpha9 gm) := by
    unfold r0
    rw [hB, hα]
  unfold spiral_pt r9
  rw [hxe, hyb, hr0, hα, hθ, hφ, hside]
  refine Prod.ext ?_ ?_ <;> simp only <;> ring

/-- The doubled signed area of the failure polygon along the `mkInput9`
family equals the closed form `F9`. -/
theorem polyArea2_mk9 (gm : ℝ) (hgm : 0 < gm) : polyArea2 (mkInput9 gm) = F9 gm := by
  have hφ := phi_d_mk9 gm
  have hc := cos_alpha9_pos gm hgm
  have hs := sin_alpha9_pos gm hgm
  have hr24 := r9_pos gm hgm 24
  have hxs : x_eff_start (mkInput9 gm) = -(1 / 2) := by
    unfold x_eff_start mkInput9 side B_prime
    norm_num
  have hyb : y_base (mkInput9 gm) = 0 := by
    unfold y_base mkInput9
    norm_num
  have hside : side (mkInput9 gm) = 1 := by
    unfold side mkInput9
    norm_num
  have hp1 : p1 (mkInput9 gm) = (-(1 / 2), 0) := by
    unfold p1
    rw [hxs, hyb]
  have happ : p_apex (mkInput9 gm) = (0, -(Real.tan (alpha9 gm) / 2)) := by
    unfold p_apex h_kile
    have hα : alpha1_rad (mkInput9 gm) = alpha9 gm := by
      rw [alpha1_rad_eq, hφ]
      rfl
    have hB : B_prime (mkInput9 gm) = 1 := by
      unfold B_prime mkInput9
      norm_num
    rw [hα, hB, hyb]
    refine Prod.ext rfl ?_
    show (0 : ℝ) - 1 / 2 * Real.tan (alpha9 gm) = -(Real.tan (alpha9 gm) / 2)
    ring
  have hsp24 : spiral_pt (mkInput9 gm) 24
      = (1 / 2 + r9 gm 24 * Real.cos (alpha9 gm), r9 gm 24 * Real.sin (alpha9 gm)) := by
    rw [spiral_pt_mk9, angle24_mk9, Real.cos_neg, Real.sin_neg]
    refine Prod.ext rfl ?_
    show -(r9 gm 24 * -Real.sin (alpha9 gm)) = r9 gm 24 * Real.sin (alpha9 gm)
    ring
  have hlast : p_last_spiral (mkInput9 gm) = spiral_pt (mkInput9 gm) 24 :=
    p_last_spiral_eq _
  have hdx : dx_exit (mkInput9 gm)
      = r9 gm 24 * Real.sin (alpha9 gm) * Real.tan (alpha9 gm) := by
    unfold dx_exit
    rw [hlast, hsp24]
    have hang : radians 90 - exit_angle (mkInput9 gm) = alpha9 gm := by
      rw [exit_angle_eq, hφ]
      unfold radians alpha9
      ring
    rw [hang]
    simp only
    rw [abs_of_pos (mul_pos hr24 hs)]
  have hexit : p_exit (mkInput9 gm)
      = (1 / 2 + r9 gm 24 * Real.cos (alpha9 gm)
          + r9 gm 24 * Real.sin (alpha9 gm) * Real.tan (alpha9 gm), 0) := by
    unfold p_exit
    rw [hlast, hsp24, hdx, hside]
    refine Prod.ext ?_ rfl
    show 1 / 2 + r9 gm 24 * Real.cos (alpha9 gm)
        + 1 * (r9 gm 24 * Real.sin (alpha9 gm) * Real.tan (alpha9 gm)) = _
    ring
  have hθ0 : theta9 gm 0 = 0 := by
    unfold theta9
    norm_num
  have hr90 : r9 gm 0 = 1 / 2 / Real.cos (alpha9 gm) := by
    unfold r9
    rw [hθ0]
    simp
  have hsp0 : spiral_pt (mkInput9 gm) 0
      = (1 / 2 + 1 / 2 / Real.cos (alpha9 gm) * Real.cos (alpha9 gm),
          -(1 / 2 / Real.cos (alpha9 gm) * Real.sin (alpha9 gm))) := by
    rw [spiral_pt_mk9, hθ0, hr90]
    norm_num
  -- decompose the shoelace sum
  have hM : spiral_pts (mkInput9 gm) ≠ [] := by simp [spiral_pts]
  have hL2 : spiral_pts (mkInput9 gm) ++ [p_exit (mkInput9 gm), (x_eff_start (mkInput9 gm), 0)]
      ≠ [] := by simp
  have hdecomp : polyArea2 (mkInput9 gm)
      = cross2 (p1 (mkInput9 gm)) (p_apex (mkInput9 gm))
        + cross2 (p_apex (mkInput9 gm)) (spiral_pt (mkInput9 gm) 0)
        + (∑ j in Finset.range 24,
            cross2 (spiral_pt (mkInput9 gm) j) (spiral_pt (mkInput9 gm) (j + 1)))
        + cross2 (spiral_pt (mkInput9 gm) 24) (p_exit (mkInput9 gm))
        + cross2 (p_exit (mkInput9 gm)) (x_eff_start (mkInput9 gm), 0)
        + cross2 (x_eff_start (mkInput9 gm), 0) (p1 (mkInput9 gm)) := by
    unfold polyArea2 shoelace poly_pts
    rw [pathSum_append ([p1 (mkInput9 gm), p_apex (mkInput9 gm)] ++ spiral_pts (mkInput9 gm))
      [p_exit (mkInput9 gm), (x_eff_start (mkInput9 gm), 0)] (by simp) (by simp)]
    rw [pathSum_append [p1 (mkInput9 gm), p_apex (mkInput9 gm)] (spiral_pts (mkInput9 gm))
      (by simp) hM]
    have e1 : pathSum [p1 (mkInput9 gm), p_apex (mkInput9 gm)]
        = cross2 (p1 (mkInput9 gm)) (p_apex (mkInput9 gm)) := by
      simp [pathSum]
    have e2 : pathSum [p_exit (mkInput9 gm), (x_eff_start (mkInput9 gm), 0)]
        = cross2 (p_exit (mkInput9 gm)) (x_eff_start (mkInput9 gm), 0) := by
      simp [pathSum]
    have e3 : pathSum (spiral_pts (mkInput9 gm))
        = ∑ j in Finset.range 24,
            cross2 (spiral_pt (mkInput9 gm) j) (spiral_pt (mkInput9 gm) (j + 1)) := by
      unfold spiral_pts
      exact pathSum_map_range (spiral_pt (mkInput9 gm)) 24
    have e4 : ([p1 (mkInput9 gm), p_apex (mkInput9 gm)]).getLastD (0, 0)
        = p_apex (mkInput9 gm) := rfl
    have e5 : (spiral_pts (mkInput9 gm)).headD (0, 0) = spiral_pt (mkInput9 gm) 0 := by
      unfold spiral_pts
      rw [map_range_eq_cons]
      rfl
    have e6 : ([p1 (mkInput9 gm), p_apex (mkInput9 gm)]
          ++ spiral_pts (mkInput9 gm)).getLastD (0, 0) = spiral_pt (mkInput9 gm) 24 := by
      rw [getLastD_append_right _ _ hM]
      unfold spiral_pts
      exact getLastD_map_range _ 24 _
    have e7 : ([p_exit (mkInput9 gm), (x_eff_start (mkInput9 gm), 0)]).headD (0, 0)
        = p_exit (mkInput9 gm) := rfl
    have e8 : ([p1 (mkInput9 gm), p_apex (mkInput9 gm)] ++ spiral_pts (mkInput9 gm)
          ++ [p_exit (mkInput9 gm), (x_eff_start (mkInput9 gm), 0)]).getLastD (0, 0)
        = (x_eff_start (mkInput9 gm), 0) := by
      rw [getLastD_append_right _ _ (by simp : [p_exit (mkInput9 gm),
        (x_eff_start (mkInput9 gm), 0)] ≠ [])]
      rfl
    have e9 : ([p1 (mkInput9 gm), p_apex (mkInput9 gm)] ++ spiral_pts (mkInput9 gm)
          ++ [p_exit (mkInput9 gm), (x_eff_start (mkInput9 gm), 0)]).headD (0, 0)
        = p1 (mkInput9 gm) := rfl
    rw [e1, e2, e3, e4, e5, e6, e7, e8, e9]
  -- evaluate the individual cross terms
  have hcross_sp : ∀ j : ℕ,
      cross2 (spiral_pt (mkInput9 gm) j) (spiral_pt (mkInput9 gm) (j + 1))
        = (r9 gm j * Real.sin (alpha9 gm - theta9 gm j)
            - r9 gm (j + 1) * Real.sin (alpha9 gm - theta9 gm (j + 1))) / 2
          + r9 gm j * r9 gm (j + 1) * Real.sin (delta9 gm) := by
    intro j
    rw [spiral_pt_mk9, spiral_pt_mk9]
    have hd : alpha9 gm - theta9 gm j - (alpha9 gm - theta9 gm (j + 1)) = delta9 gm := by
      unfold theta9 delta9
      push_cast
      ring
    have hsub : Real.sin (delta9 gm)
        = Real.sin (alpha9 gm - theta9 gm j) * Real.cos (alpha9 gm - theta9 gm (j + 1))
          - Real.cos (alpha9 gm - theta9 gm j) * Real.sin (alpha9 gm - theta9 gm (j + 1)) := by
      rw [← Real.sin_sub, hd]
    rw [hsub]
    unfold cross2
    simp only
    ring
  have hsum : (∑ j in Finset.range 24,
        cross2 (spiral_pt (mkInput9 gm) j) (spiral_pt (mkInput9 gm) (j + 1)))
      = (r9 gm 0 * Real.sin (alpha9 gm) + r9 gm 24 * Real.sin (alpha9 gm)) / 2
        + Real.sin (delta9 gm) * (∑ j in Finset.range 24, r9 gm j * r9 gm (j + 1)) := by
    rw [Finset.sum_congr rfl fun j _ => hcross_sp j, Finset.sum_add_distrib, ← Finset.sum_div,
      Finset.sum_range_sub' fun j => r9 gm j * Real.sin (alpha9 gm - theta9 gm j)]
    rw [hθ0, angle24_mk9, Real.sin_neg, sub_zero, ← Finset.sum_mul]
    ring
  rw [hdecomp, hsum, hp1, happ, hsp0, hsp24, hexit]
  unfold cross2 F9
  simp only
  rw [hr90, Real.tan_eq_sin_div_cos]
  have hpy : Real.sin (alpha9 gm) ^ 2 + Real.cos (alpha9 gm) ^ 2 = 1 :=
    Real.sin_sq_add_cos_sq (alpha9 gm)
  have hcne : Real.cos (alpha9 gm) ≠ 0 := ne_of_gt hc
  field_simp
  ring_nf
  linear_combination
    (-(128 * r9 gm 24 ^ 2 * Real.sin (alpha9 gm) * Real.cos (alpha9 gm) ^ 5)) * hpy

/-- Decimal bounds for `√3`. -/
theorem sqrt3_bounds : 1.7320508 < Real.sqrt 3 ∧ Real.sqrt 3 < 1.7320509 :=
  ⟨(Real.lt_sqrt (by norm_num)).mpr (by norm_num),
    (Real.sqrt_lt' (by norm_num)).mpr (by norm_num)⟩

/-- Decimal bounds for `√2`. -/
theorem sqrt2_bounds : 1.4142135 < Real.sqrt 2 ∧ Real.sqrt 2 < 1.4142136 :=
  ⟨(Real.lt_sqrt (by norm_num)).mpr (by norm_num),
    (Real.sqrt_lt' (by norm_num)).mpr (by norm_num)⟩

/-- Decimal bounds for `√6`. -/
theorem sqrt6_bounds : 2.4494897 < Real.sqrt 6 ∧ Real.sqrt 6 < 2.4494898 :=
  ⟨(Real.lt_sqrt (by norm_num)).mpr (by norm_num),
    (Real.sqrt_lt' (by norm_num)).mpr (by norm_num)⟩

/-- At `γm = √3` the design angle is exactly `π/6`. -/
theorem phi9_sqrt3 : phi9 (Real.sqrt 3) = Real.pi / 6 := by
  unfold phi9
  rw [← Real.tan_pi_div_six]
  exact Real.arctan_tan (by linarith [Real.pi_pos]) (by linarith [Real.pi_pos])

/-- At `γm = √3` the wedge angle is exactly `π/3`. -/
theorem alpha9_sqrt3 : alpha9 (Real.sqrt 3) = Real.pi / 3 := by
  unfold alpha9
  rw [phi9_sqrt3]
  ring

/-- At `γm = √3` the spiral step is exactly `π/36`. -/
theorem delta9_sqrt3 : delta9 (Real.sqrt 3) = Real.pi / 36 := by
  unfold delta9
  rw [phi9_sqrt3]
  ring

/-- The spiral radii at `γm = √3` in pure exponential form. -/
theorem r9_sqrt3 (k : ℕ) :
    r9 (Real.sqrt 3) k = Real.exp (k * (Real.pi / (36 * Real.sqrt 3))) := by
  unfold r9 theta9
  rw [alpha9_sqrt3, phi9_sqrt3, Real.cos_pi_div_three, Real.tan_pi_div_six,
    show (1 : ℝ) / 2 / (1 / 2) = 1 by norm_num, one_mul]
  congr 1
  have h3 : Real.sqrt 3 ≠ 0 := by positivity
  field_simp
  ring

/-- Consecutive radius products at `γm = √3` in geometric form. -/
theorem r9_mul_sqrt3 (j : ℕ) :
    r9 (Real.sqrt 3) j * r9 (Real.sqrt 3) (j + 1)
      = Real.exp (Real.pi / (36 * Real.sqrt 3))
        * Real.exp (2 * (Real.pi / (36 * Real.sqrt 3))) ^ j := by
  rw [r9_sqrt3, r9_sqrt3, ← Real.exp_add, ← Real.exp_nat_mul, ← Real.exp_add]
  congr 1
  push_cast
  ring

/-- The squared final radius at `γm = √3`. -/
theorem r9_24_sq_sqrt3 :
    r9 (Real.sqrt 3) 24 ^ 2 = Real.exp (48 * (Real.pi / (36 * Real.sqrt 3))) := by
  rw [r9_sqrt3, ← Real.exp_nat_mul]
  congr 1
  push_cast
  ring

/-- At `γm = √3` the doubled signed polygon area is negative: the huge
log-spiral overshoots the ground line and the closing passive edge sweeps
back over it. -/
theorem F9_sqrt3_neg : F9 (Real.sqrt 3) < 0 := by
  set X := Real.pi / (36 * Real.sqrt 3) with hX
  have hs3l := sqrt3_bounds.1
  have hs3u := sqrt3_bounds.2
  have hπl := Real.pi_gt_d2
  have hπu := Real.pi_lt_d2
  have hs3pos : (0 : ℝ) < Real.sqrt 3 := by linarith
  have hXpos : 0 < X := by rw [hX]; positivity
  have hXle : X ≤ 1 / 8 := by
    rw [hX, div_le_iff (by positivity)]
    nlinarith
  have hXge : 1 / 20 ≤ X := by
    rw [hX, le_div_iff (by positivity)]
    nlinarith
  have hE1 : Real.exp X ≤ 6 / 5 := by
    have h1 : Real.exp X ≤ Real.exp (1 / 8) := Real.exp_le_exp.mpr hXle
    have h2 : Real.exp (1 / 8) < 6 / 5 := by
      by_contra hcon
      push_neg at hcon
      have h3 : ((6 : ℝ) / 5) ^ 8 ≤ Real.exp (1 / 8) ^ 8 :=
        pow_le_pow_left (by norm_num) hcon 8
      rw [← Real.exp_nat_mul] at h3
      norm_num at h3
      have h4 := Real.exp_one_lt_d9
      linarith
    linarith
  have hq : 1 < Real.exp (2 * X) := Real.one_lt_exp_iff.mpr (by linarith)
  have hqm : 2 * X + 1 ≤ Real.exp (2 * X) := Real.add_one_le_exp _
  have hE48 : 5 / 2 < Real.exp (48 * X) := by
    have h1 := Real.add_one_le_exp (48 * X)
    linarith
  have hsum : (∑ j in Finset.range 24, r9 (Real.sqrt 3) j * r9 (Real.sqrt 3) (j + 1))
      = Real.exp X * ((Real.exp (2 * X)) ^ 24 - 1) / (Real.exp (2 * X) - 1) := by
    rw [Finset.sum_congr rfl fun j _ => r9_mul_sqrt3 j, ← Finset.mul_sum,
      geom_sum_eq (ne_of_gt hq) 24, mul_div_assoc]
  have h48 : (Real.exp (2 * X)) ^ 24 = Real.exp (48 * X) := by
    rw [← Real.exp_nat_mul]
    congr 1
    push_cast
    ring
  have hF : F9 (Real.sqrt 3)
      = Real.sqrt 3
        + Real.sin (Real.pi / 36)
          * (Real.exp X * (Real.exp (48 * X) - 1) / (Real.exp (2 * X) - 1))
        - Real.exp (48 * X) * Real.sqrt 3 := by
    unfold F9
    rw [alpha9_sqrt3, Real.tan_pi_div_three, delta9_sqrt3, hsum, r9_24_sq_sqrt3, h48]
  rw [hF]
  have hsin : Real.sin (Real.pi / 36) ≤ Real.pi / 36 := Real.sin_le (by positivity)
  have hsin0 : 0 ≤ Real.sin (Real.pi / 36) :=
    le_of_lt (Real.sin_pos_of_pos_of_lt_pi (by positivity) (by linarith [Real.pi_pos]))
  have hden : 0 < Real.exp (2 * X) - 1 := by linarith
  have hEX := Real.exp_pos X
  have hE48p := Real.exp_pos (48 * X)
  have hnum_le : Real.exp X * (Real.exp (48 * X) - 1) ≤ Real.exp X * Real.exp (48 * X) := by
    nlinarith
  have hnum0 : 0 ≤ Real.exp X * (Real.exp (48 * X) - 1) := by nlinarith
  have hmid : Real.exp X * (Real.exp (48 * X) - 1) / (Real.exp (2 * X) - 1)
      ≤ Real.exp X * Real.exp (48 * X) / (2 * X) := by
    apply div_le_div (by positivity) hnum_le (by linarith) (by linarith)
  have heq : Real.pi / 36 * (Real.exp X * Real.exp (48 * X) / (2 * X))
      = Real.sqrt 3 / 2 * (Real.exp X * Real.exp (48 * X)) := by
    rw [hX]
    have h1 : Real.sqrt 3 ≠ 0 := by positivity
    have h2 : Real.pi ≠ 0 := ne_of_gt Real.pi_pos
    field_simp
    ring
  have hchain : Real.sin (Real.pi / 36)
        * (Real.exp X * (Real.exp (48 * X) - 1) / (Real.exp (2 * X) - 1))
      ≤ Real.sqrt 3 / 2 * (Real.exp X * Real.exp (48 * X)) := by
    calc Real.sin (Real.pi / 36)
          * (Real.exp X * (Real.exp (48 * X) - 1) / (Real.exp (2 * X) - 1))
        ≤ Real.pi / 36 * (Real.exp X * Real.exp (48 * X) / (2 * X)) := by
          apply mul_le_mul hsin hmid (div_nonneg hnum0 (le_of_lt hden)) (by positivity)
      _ = _ := heq
  have hlast : Real.sqrt 3 / 2 * (Real.exp X * Real.exp (48 * X))
      ≤ 3 / 5 * (Real.sqrt 3 * Real.exp (48 * X)) := by
    have h1 : Real.exp X * Real.exp (48 * X) ≤ 6 / 5 * Real.exp (48 * X) :=
      mul_le_mul_of_nonneg_right hE1 (le_of_lt hE48p)
    calc Real.sqrt 3 / 2 * (Real.exp X * Real.exp (48 * X))
        ≤ Real.sqrt 3 / 2 * (6 / 5 * Real.exp (48 * X)) :=
          mul_le_mul_of_nonneg_left h1 (by positivity)
      _ = 3 / 5 * (Real.sqrt 3 * Real.exp (48 * X)) := by ring
  nlinarith [mul_pos hs3pos (sub_pos.mpr hE48)]

/-- `sin (π/12)` in closed form. -/
theorem sin_pi_div_12 : Real.sin (Real.pi / 12) = (Real.sqrt 6 - Real.sqrt 2) / 4 := by
  have h6 : Real.sqrt 6 = Real.sqrt 3 * Real.sqrt 2 := by
    rw [← Real.sqrt_mul (by norm_num : (0 : ℝ) ≤ 3)]
    norm_num
  rw [show Real.pi / 12 = Real.pi / 3 - Real.pi / 4 by ring, Real.sin_sub,
    Real.sin_pi_div_three, Real.cos_pi_div_four, Real.cos_pi_div_three,
    Real.sin_pi_div_four, h6]
  ring

/-- `cos (π/12)` in closed form. -/
theorem cos_pi_div_12 : Real.cos (Real.pi / 12) = (Real.sqrt 6 + Real.sqrt 2) / 4 := by
  have h6 : Real.sqrt 6 = Real.sqrt 3 * Real.sqrt 2 := by
    rw [← Real.sqrt_mul (by norm_num : (0 : ℝ) ≤ 3)]
    norm_num
  rw [show Real.pi / 12 = Real.pi / 3 - Real.pi / 4 by ring, Real.cos_sub,
    Real.cos_pi_div_three, Real.cos_pi_div_four, Real.sin_pi_div_three,
    Real.sin_pi_div_four, h6]
  ring

/-- `tan (π/12) = 2 − √3`. -/
theorem tan_pi_div_12 : Real.tan (Real.pi / 12) = 2 - Real.sqrt 3 := by
  have h3 : Real.sqrt 3 ^ 2 = 3 := Real.sq_sqrt (by norm_num)
  have h6 : Real.sqrt 6 = Real.sqrt 3 * Real.sqrt 2 := by
    rw [← Real.sqrt_mul (by norm_num : (0 : ℝ) ≤ 3)]
    norm_num
  have hden : (0 : ℝ) < (Real.sqrt 6 + Real.sqrt 2) / 4 := by positivity
  rw [Real.tan_eq_sin_div_cos, sin_pi_div_12, cos_pi_div_12,
    div_eq_iff (ne_of_gt hden), h6]
  linear_combination Real.sqrt 2 / 4 * h3

/-- `1/(2+√3) = 2 − √3`. -/
theorem inv_two_add_sqrt3 : 1 / (2 + Real.sqrt 3) = 2 - Real.sqrt 3 := by
  have h3 : Real.sqrt 3 ^ 2 = 3 := Real.sq_sqrt (by norm_num)
  have hpos : (0 : ℝ) < 2 + Real.sqrt 3 := by positivity
  rw [div_eq_iff (ne_of_gt hpos)]
  linear_combination h3

/-- At `γm = 2+√3` the design angle is exactly `π/12`. -/
theorem phi9_g2 : phi9 (2 + Real.sqrt 3) = Real.pi / 12 := by
  unfold phi9
  rw [inv_two_add_sqrt3, ← tan_pi_div_12]
  exact Real.arctan_tan (by linarith [Real.pi_pos]) (by linarith [Real.pi_pos])

/-- The design-angle tangent at `γm = 2+√3`. -/
theorem tan_phi9_g2 : Real.tan (phi9 (2 + Real.sqrt 3)) = 2 - Real.sqrt 3 := by
  unfold phi9
  rw [Real.tan_arctan, inv_two_add_sqrt3]

/-- The wedge angle at `γm = 2+√3`. -/
theorem alpha9_g2 : alpha9 (2 + Real.sqrt 3) = 7 * Real.pi / 24 := by
  unfold alpha9
  rw [phi9_g2]
  ring

/-- The spiral step at `γm = 2+√3`. -/
theorem delta9_g2 : delta9 (2 + Real.sqrt 3) = 7 * Real.pi / 288 := by
  unfold delta9
  rw [phi9_g2]
  ring

/-- `cos²` of the wedge angle at `γm = 2+√3`. -/
theorem cos_sq_alpha9_g2 :
    Real.cos (alpha9 (2 + Real.sqrt 3)) ^ 2 = (4 - Real.sqrt 6 + Real.sqrt 2) / 8 := by
  rw [alpha9_g2, Real.cos_sq, show 2 * (7 * Real.pi / 24) = Real.pi / 2 + Real.pi / 12 by ring,
    show Real.cos (Real.pi / 2 + Real.pi / 12) = -Real.sin (Real.pi / 12) from by
      rw [Real.cos_add, Real.cos_pi_div_two, Real.sin_pi_div_two]; ring,
    sin_pi_div_12]
  ring

/-- `sin²` of the wedge angle at `γm = 2+√3`. -/
theorem sin_sq_alpha9_g2 :
    Real.sin (alpha9 (2 + Real.sqrt 3)) ^ 2 = (4 + Real.sqrt 6 - Real.sqrt 2) / 8 := by
  have h1 := Real.sin_sq_add_cos_sq (alpha9 (2 + Real.sqrt 3))
  have h2 := cos_sq_alpha9_g2
  linarith

/-- The spiral radii at `γm = 2+√3`. -/
theorem r9_g2 (k : ℕ) :
    r9 (2 + Real.sqrt 3) k
      = 1 / 2 / Real.cos (alpha9 (2 + Real.sqrt 3))
        * Real.exp (k * (7 * Real.pi * (2 - Real.sqrt 3) / 288)) := by
  unfold r9 theta9
  rw [tan_phi9_g2, phi9_g2]
  congr 1
  push_cast
  ring

/-- Consecutive radius products at `γm = 2+√3`. -/
theorem r9_mul_g2 (j : ℕ) :
    r9 (2 + Real.sqrt 3) j * r9 (2 + Real.sqrt 3) (j + 1)
      = 1 / (4 * Real.cos (alpha9 (2 + Real.sqrt 3)) ^ 2)
        * Real.exp ((2 * j + 1) * (7 * Real.pi * (2 - Real.sqrt 3) / 288)) := by
  rw [r9_g2, r9_g2, mul_mul_mul_comm, ← Real.exp_add,
    show (j : ℝ) * (7 * Real.pi * (2 - Real.sqrt 3) / 288)
        + ((j + 1 : ℕ) : ℝ) * (7 * Real.pi * (2 - Real.sqrt 3) / 288)
      = (2 * j + 1) * (7 * Real.pi * (2 - Real.sqrt 3) / 288) from by push_cast; ring]
  ring

/-- The squared final radius at `γm = 2+√3`. -/
theorem r9_24_sq_g2 :
    r9 (2 + Real.sqrt 3) 24 ^ 2
      = 1 / (4 * Real.cos (alpha9 (2 + Real.sqrt 3)) ^ 2)
        * Real.exp (48 * (7 * Real.pi * (2 - Real.sqrt 3) / 288)) := by
  rw [r9_g2, mul_pow, ← Real.exp_nat_mul,
    show ((2 : ℕ) : ℝ) * (((24 : ℕ) : ℝ) * (7 * Real.pi * (2 - Real.sqrt 3) / 288))
      = 48 * (7 * Real.pi * (2 - Real.sqrt 3) / 288) from by push_cast; ring]
  ring

/-- Decimal bounds for the wedge-angle cosine at `γm = 2+√3`. -/
theorem cos_alpha9_g2_bounds :
    0.6087 ≤ Real.cos (alpha9 (2 + Real.sqrt 3))
      ∧ Real.cos (alpha9 (2 + Real.sqrt 3)) ≤ 0.6089 := by
  have hc2 := cos_sq_alpha9_g2
  have hcpos : 0 < Real.cos (alpha9 (2 + Real.sqrt 3)) :=
    cos_alpha9_pos _ (by positivity)
  have h6l := sqrt6_bounds.1
  have h6u := sqrt6_bounds.2
  have h2l := sqrt2_bounds.1
  have h2u := sqrt2_bounds.2
  constructor <;> nlinarith

/-- Decimal bounds for the wedge-angle sine at `γm = 2+√3`. -/
theorem sin_alpha9_g2_bounds :
    0.7933 ≤ Real.sin (alpha9 (2 + Real.sqrt 3))
      ∧ Real.sin (alpha9 (2 + Real.sqrt 3)) ≤ 0.7934 := by
  have hs2 := sin_sq_alpha9_g2
  have hspos : 0 < Real.sin (alpha9 (2 + Real.sqrt 3)) :=
    sin_alpha9_pos _ (by positivity)
  have h6l := sqrt6_bounds.1
  have h6u := sqrt6_bounds.2
  have h2l := sqrt2_bounds.1
  have h2u := sqrt2_bounds.2
  constructor <;> nlinarith

/-- Decimal bounds for the squared-radius coefficient at `γm = 2+√3`. -/
theorem q_g2_bounds :
    0.6745 ≤ 1 / (4 * Real.cos (alpha9 (2 + Real.sqrt 3)) ^ 2)
      ∧ 1 / (4 * Real.cos (alpha9 (2 + Real.sqrt 3)) ^ 2) ≤ 0.6747 := by
  have hc2 := cos_sq_alpha9_g2
  have hcpos : 0 < Real.cos (alpha9 (2 + Real.sqrt 3)) :=
    cos_alpha9_pos _ (by positivity)
  have hc2pos : (0 : ℝ) < 4 * Real.cos (alpha9 (2 + Real.sqrt 3)) ^ 2 := by positivity
  have h6l := sqrt6_bounds.1
  have h6u := sqrt6_bounds.2
  have h2l := sqrt2_bounds.1
  have h2u := sqrt2_bounds.2
  constructor
  · rw [le_div_iff hc2pos, hc2]
    linarith
  · rw [div_le_iff hc2pos, hc2]
    linarith

set_option maxHeartbeats 1000000 in
/-- At `γm = 2+√3` the doubled signed polygon area is positive: the
spiral is small enough that the polygon is traversed counterclockwise. -/
theorem F9_g2_pos : 0 < F9 (2 + Real.sqrt 3) := by
  have h6l := sqrt6_bounds.1
  have h6u := sqrt6_bounds.2
  have h2l := sqrt2_bounds.1
  have h2u := sqrt2_bounds.2
  have h3l := sqrt3_bounds.1
  have h3u := sqrt3_bounds.2
  have hπl := Real.pi_gt_d6
  have hπu := Real.pi_lt_d6
  have hgpos : (0 : ℝ) < 2 + Real.sqrt 3 := by positivity
  have hcpos0 := cos_alpha9_pos _ hgpos
  have hspos0 := sin_alpha9_pos _ hgpos
  have hc20 := cos_sq_alpha9_g2
  have hs20 := sin_sq_alpha9_g2
  have hcb := cos_alpha9_g2_bounds
  have hsb := sin_alpha9_g2_bounds
  have hqb := q_g2_bounds
  -- the closed form of F9 at this material factor
  have hsum : (∑ j in Finset.range 24, r9 (2 + Real.sqrt 3) j * r9 (2 + Real.sqrt 3) (j + 1))
      = 1 / (4 * Real.cos (alpha9 (2 + Real.sqrt 3)) ^ 2)
        * (∑ j in Finset.range 24,
            Real.exp ((2 * j + 1) * (7 * Real.pi * (2 - Real.sqrt 3) / 288))) := by
    rw [Finset.sum_congr rfl fun j _ => r9_mul_g2 j, ← Finset.mul_sum]
  have hF : F9 (2 + Real.sqrt 3)
      = Real.tan (alpha9 (2 + Real.sqrt 3))
        + Real.sin (7 * Real.pi / 288)
          * (1 / (4 * Real.cos (alpha9 (2 + Real.sqrt 3)) ^ 2)
              * (∑ j in Finset.range 24,
                  Real.exp ((2 * j + 1) * (7 * Real.pi * (2 - Real.sqrt 3) / 288))))
        - 1 / (4 * Real.cos (alpha9 (2 + Real.sqrt 3)) ^ 2)
          * Real.exp (48 * (7 * Real.pi * (2 - Real.sqrt 3) / 288))
          * Real.tan (alpha9 (2 + Real.sqrt 3)) := by
    unfold F9
    rw [delta9_g2, hsum, r9_24_sq_g2]
  have hT : Real.tan (alpha9 (2 + Real.sqrt 3))
      = Real.sin (alpha9 (2 + Real.sqrt 3)) / Real.cos (alpha9 (2 + Real.sqrt 3)) :=
    Real.tan_eq_sin_div_cos _
  rw [hF, hT]
  clear hF hsum
  -- bounds on the step parameter
  have hx2pos : 0 < 7 * Real.pi * (2 - Real.sqrt 3) / 288 := by
    have h1 : (0 : ℝ) < 2 - Real.sqrt 3 := by linarith
    have h2 : (0 : ℝ) < 7 * Real.pi := by linarith [Real.pi_pos]
    exact div_pos (mul_pos h2 h1) (by norm_num)
  have hx2l : 0.020459 ≤ 7 * Real.pi * (2 - Real.sqrt 3) / 288 := by
    have h1 : (3.141592 : ℝ) * 0.2679491 ≤ Real.pi * (2 - Real.sqrt 3) :=
      mul_le_mul (le_of_lt hπl) (by linarith) (by norm_num) (by linarith [Real.pi_pos])
    have h2 : (0.020459 : ℝ) ≤ 7 * (3.141592 * 0.2679491) / 288 := by norm_num
    linarith
  have hx2u : 48 * (7 * Real.pi * (2 - Real.sqrt 3) / 288) ≤ 1 := by
    have h1 : Real.pi * (2 - Real.sqrt 3) ≤ 3.141593 * 0.2679492 :=
      mul_le_mul (le_of_lt hπu) (by linarith) (by linarith) (by norm_num)
    have h2 : (48 : ℝ) * (7 * (3.141593 * 0.2679492) / 288) ≤ 1 := by norm_num
    linarith
  -- summation lower bound on the explicit sum
  have hSel : 24 + 576 * (7 * Real.pi * (2 - Real.sqrt 3) / 288)
      ≤ ∑ j in Finset.range 24,
          Real.exp ((2 * j + 1) * (7 * Real.pi * (2 - Real.sqrt 3) / 288)) := by
    have h1 : ∀ j ∈ Finset.range 24,
        (2 * (j : ℝ) + 1) * (7 * Real.pi * (2 - Real.sqrt 3) / 288) + 1
          ≤ Real.exp ((2 * j + 1) * (7 * Real.pi * (2 - Real.sqrt 3) / 288)) := fun j _ =>
      Real.add_one_le_exp _
    have h2 := Finset.sum_le_sum h1
    have h3 : ∑ j in Finset.range 24,
        ((2 * (j : ℝ) + 1) * (7 * Real.pi * (2 - Real.sqrt 3) / 288) + 1)
        = 24 + 576 * (7 * Real.pi * (2 - Real.sqrt 3) / 288) := by
      simp [Finset.sum_range_succ]
      ring
    linarith
  have hEu : Real.exp (48 * (7 * Real.pi * (2 - Real.sqrt 3) / 288)) ≤ 2.7182819 := by
    have h1 : Real.exp (48 * (7 * Real.pi * (2 - Real.sqrt 3) / 288)) ≤ Real.exp 1 :=
      Real.exp_le_exp.mpr hx2u
    have h2 := Real.exp_one_lt_d9
    norm_num at h2
    linarith
  have hEl : 1.982 ≤ Real.exp (48 * (7 * Real.pi * (2 - Real.sqrt 3) / 288)) := by
    have h1 := Real.add_one_le_exp (48 * (7 * Real.pi * (2 - Real.sqrt 3) / 288))
    linarith
  -- bounds on the small-angle sine
  have hΔu : 7 * Real.pi / 288 ≤ 0.0763582 := by linarith
  have hΔpos : (0 : ℝ) < 7 * Real.pi / 288 := by positivity
  have hΔle1 : 7 * Real.pi / 288 ≤ 1 := by linarith
  have hcube : (7 * Real.pi / 288) ^ 3 ≤ 0.000445214 := by
    have h1 : (7 * Real.pi / 288) ^ 2 ≤ 0.0763582 ^ 2 :=
      pow_le_pow_left (by positivity) hΔu 2
    nlinarith
  have hsinΔ : 0.076246 ≤ Real.sin (7 * Real.pi / 288) := by
    have h1 := Real.sin_gt_sub_cube hΔpos hΔle1
    linarith
  -- make every transcendental quantity opaque, then finish linearly
  obtain ⟨c, hc⟩ : ∃ t : ℝ, Real.cos (alpha9 (2 + Real.sqrt 3)) = t := ⟨_, rfl⟩
  obtain ⟨s, hs⟩ : ∃ t : ℝ, Real.sin (alpha9 (2 + Real.sqrt 3)) = t := ⟨_, rfl⟩
  obtain ⟨Se, hSe⟩ : ∃ t : ℝ, ∑ j in Finset.range 24,
      Real.exp ((2 * j + 1) * (7 * Real.pi * (2 - Real.sqrt 3) / 288)) = t := ⟨_, rfl⟩
  obtain ⟨E, hEd⟩ : ∃ t : ℝ, Real.exp (48 * (7 * Real.pi * (2 - Real.sqrt 3) / 288)) = t :=
    ⟨_, rfl⟩
  obtain ⟨sd, hsd⟩ : ∃ t : ℝ, Real.sin (7 * Real.pi / 288) = t := ⟨_, rfl⟩
  obtain ⟨x2, hx2⟩ : ∃ t : ℝ, 7 * Real.pi * (2 - Real.sqrt 3) / 288 = t := ⟨_, rfl⟩
  rw [hc, hs, hSe, hEd, hsd]
  rw [hc] at hcpos0 hc20 hcb hqb
  rw [hs] at hspos0 hsb
  rw [hSe] at hSel
  rw [hx2] at hSel hx2l
  rw [hEd] at hEu hEl
  rw [hsd] at hsinΔ
  clear hc hs hSe hEd hsd hx2 hx2u hx2pos hΔu hΔle1 hΔpos hcube hs20 hT hgpos
  clear h6l h6u h2l h2u h3l h3u hπl hπu
  obtain ⟨hcl, hcu⟩ := hcb
  obtain ⟨hsl, hsu⟩ := hsb
  have hTl : 1.3028 ≤ s / c := by
    have h1 : (0.7933 : ℝ) / 0.6089 ≤ s / c := div_le_div (by linarith) hsl hcpos0 hcu
    have h2 : (1.3028 : ℝ) ≤ 0.7933 / 0.6089 := by norm_num
    linarith
  have hTu : s / c ≤ 1.3035 := by
    have h1 : s / c ≤ (0.7934 : ℝ) / 0.6087 := div_le_div (by norm_num) hsu (by norm_num) hcl
    have h2 : (0.7934 : ℝ) / 0.6087 ≤ 1.3035 := by norm_num
    linarith
  obtain ⟨hQl, hQu⟩ := hqb
  have hSenum : 35.784 ≤ Se := by linarith
  obtain ⟨T, hTd⟩ : ∃ t : ℝ, s / c = t := ⟨_, rfl⟩
  obtain ⟨Q, hQd⟩ : ∃ t : ℝ, 1 / (4 * c ^ 2) = t := ⟨_, rfl⟩
  rw [hTd, hQd]
  rw [hTd] at hTl hTu
  rw [hQd] at hQl hQu
  clear hTd hQd hc20 hcl hcu hsl hsu hcpos0 hspos0
  -- assemble the final estimate
  have hQE : Q * E ≤ 1.834026 := by nlinarith
  have hQE1 : 1 ≤ Q * E := by nlinarith
  have hB : T - Q * E * T ≥ 1.3035 * (1 - Q * E) := by
    nlinarith [mul_nonneg (sub_nonneg.mpr hTu) (sub_nonneg.mpr hQE1)]
  have hD : sd * (Q * Se) ≥ 1.84 := by
    have h1 : Q * Se ≥ 0.6745 * 35.784 := by
      nlinarith [mul_nonneg (sub_nonneg.mpr hQl) (sub_nonneg.mpr hSenum)]
    have h1n : (24.136 : ℝ) ≤ Q * Se := by linarith
    have h2 : sd * (Q * Se) ≥ 0.076246 * 24.136 := by
      nlinarith [mul_nonneg (sub_nonneg.mpr hsinΔ) (sub_nonneg.mpr h1n)]
    linarith
  nlinarith

/-- The closed-form area `F9` is continuous on the bracketing interval. -/
theorem F9_continuousOn :
    ContinuousOn F9 (Set.Icc (Real.sqrt 3) (2 + Real.sqrt 3)) := by
  have hpos : ∀ gm ∈ Set.Icc (Real.sqrt 3) (2 + Real.sqrt 3), (0 : ℝ) < gm := by
    intro gm hgm
    have h1 := sqrt3_bounds.1
    have h2 := hgm.1
    linarith
  have hne : ∀ gm ∈ Set.Icc (Real.sqrt 3) (2 + Real.sqrt 3), gm ≠ 0 := fun gm h =>
    ne_of_gt (hpos gm h)
  have cphi : ContinuousOn phi9 (Set.Icc (Real.sqrt 3) (2 + Real.sqrt 3)) := by
    unfold phi9
    exact Real.continuous_arctan.comp_continuousOn
      (continuousOn_const.div continuousOn_id hne)
  have calpha : ContinuousOn alpha9 (Set.Icc (Real.sqrt 3) (2 + Real.sqrt 3)) := by
    unfold alpha9
    exact continuousOn_const.add (cphi.div_const 2)
  have ccos : ContinuousOn (fun gm => Real.cos (alpha9 gm))
      (Set.Icc (Real.sqrt 3) (2 + Real.sqrt 3)) :=
    Real.continuous_cos.comp_continuousOn calpha
  have csin : ContinuousOn (fun gm => Real.sin (alpha9 gm))
      (Set.Icc (Real.sqrt 3) (2 + Real.sqrt 3)) :=
    Real.continuous_sin.comp_continuousOn calpha
  have hcosne : ∀ gm ∈ Set.Icc (Real.sqrt 3) (2 + Real.sqrt 3),
      Real.cos (alpha9 gm) ≠ 0 := fun gm h => ne_of_gt (cos_alpha9_pos gm (hpos gm h))
  have ctana : ContinuousOn (fun gm => Real.tan (alpha9 gm))
      (Set.Icc (Real.sqrt 3) (2 + Real.sqrt 3)) := by
    apply ContinuousOn.congr (csin.div ccos hcosne)
    intro gm _
    exact Real.tan_eq_sin_div_cos _
  have ctanp : ContinuousOn (fun gm => Real.tan (phi9 gm))
      (Set.Icc (Real.sqrt 3) (2 + Real.sqrt 3)) := by
    apply ContinuousOn.congr (continuousOn_const.div continuousOn_id hne)
    intro gm _
    unfold phi9
    exact Real.tan_arctan _
  have ctheta : ∀ k : ℕ, ContinuousOn (fun gm => theta9 gm k)
      (Set.Icc (Real.sqrt 3) (2 + Real.sqrt 3)) := by
    intro k
    unfold theta9
    exact ((continuousOn_const.add cphi).mul continuousOn_const).div_const 24
  have cr9 : ∀ k : ℕ, ContinuousOn (fun gm => r9 gm k)
      (Set.Icc (Real.sqrt 3) (2 + Real.sqrt 3)) := by
    intro k
    unfold r9
    exact (continuousOn_const.div ccos hcosne).mul
      (Real.continuous_exp.comp_continuousOn ((ctheta k).mul ctanp))
  have cdelta : ContinuousOn (fun gm => Real.sin (delta9 gm))
      (Set.Icc (Real.sqrt 3) (2 + Real.sqrt 3)) := by
    unfold delta9
    exact Real.continuous_sin.comp_continuousOn ((continuousOn_const.add cphi).div_const 24)
  have csum : ContinuousOn (fun gm => ∑ j in Finset.range 24, r9 gm j * r9 gm (j + 1))
      (Set.Icc (Real.sqrt 3) (2 + Real.sqrt 3)) :=
    continuousOn_finset_sum _ fun j _ => (cr9 j).mul (cr9 (j + 1))
  unfold F9
  exact (ctana.add (cdelta.mul csum)).sub (((cr9 24).pow 2).mul ctana)

/-- C9 counterexample: the failure polygon does **not** have positive
area for every admissible input — by the intermediate value theorem there
is a material factor `γm ∈ [√3, 2+√3]` (with `φk = 45°`, `B = 1 > 0`,
`D = 0`, `e = 0`) at which the polygon's shoelace area is exactly zero. -/
theorem c9_counterexample_area_zero :
    ∃ gm : ℝ, 0 < gm ∧ polyArea (mkInput9 gm) = 0 := by
  have hle : Real.sqrt 3 ≤ 2 + Real.sqrt 3 := by linarith
  have hmem : (0 : ℝ) ∈ Set.Icc (F9 (Real.sqrt 3)) (F9 (2 + Real.sqrt 3)) :=
    ⟨le_of_lt F9_sqrt3_neg, le_of_lt F9_g2_pos⟩
  obtain ⟨gm, hgm, hF0⟩ := intermediate_value_Icc hle F9_continuousOn hmem
  have hgmpos : 0 < gm := by
    have h1 := sqrt3_bounds.1
    have h2 := hgm.1
    linarith
  refine ⟨gm, hgmpos, ?_⟩
  unfold polyArea
  rw [polyArea2_mk9 gm hgmpos, hF0]
  simp

end
